import Mathlib

/-!
Verification development for `mapmakers/convert_static_trees.py`, a converter
from static trees in a map scene document (i3d) to the flat treePlant
savegame format.  The Python source is embedded shallowly:

* strings are manipulated through explicit `List Char` helpers so that every
  predicate evaluates inside the kernel;
* Python's `float()` is modelled by `PyDec`, a symbolic finite decimal
  (integer mantissa, count of fractional digits, decimal exponent); its real
  value `PyDec.val` is only consumed by the transform engine;
* the transform engine works over `ℝ` (`Mat4 := Fin 4 → Fin 4 → ℝ`), with
  `Real.sin`/`Real.cos`/`Real.arcsin`/`Real.arctan` standing for the `math`
  library functions (`atan2` is defined below following the mathematical
  specification of `math.atan2`, signed zeros excepted);
* the scene document is a mutual inductive tree (`I3DNode`/`I3DForest`),
  already namespace-stripped; attributes are kept as raw `Option String`
  exactly as `elem.get(...)` returns them;
* the traversal `scanNode` returns `Option`: Python exceptions that escape
  `find_trees` (e.g. an IndexError on a too-short transform vector) are
  modelled as `none`.  Each produced instance is paired with the path of
  child indices leading to its node, mirroring the `element=elem` identity
  stored by the Python code for later removal.
-/

/- ========================= string helpers ========================= -/

/-- Uppercase a string character-wise (model of Python `str.upper()` for the
ASCII names used by the converter). -/
def upperStr (s : String) : String := ⟨s.toList.map Char.toUpper⟩

/-- Lowercase a string character-wise (model of Python `str.lower()` for the
ASCII names used by the converter). -/
def lowerStr (s : String) : String := ⟨s.toList.map Char.toLower⟩

/-- Whether `needle` occurs as a contiguous subsequence of `hay`
(model of Python's `needle in hay` on strings). -/
def containsSeq (needle hay : List Char) : Bool :=
  (List.range (hay.length + 1)).any fun i => needle.isPrefixOf (hay.drop i)

/-- String drop by character count (model of Python slicing `s[n:]`). -/
def strDrop (s : String) (n : Nat) : String := ⟨s.toList.drop n⟩

/-- Model of Python `s.startswith(p)`. -/
def strStartsWith (s p : String) : Bool := p.toList.isPrefixOf s.toList

/-- Model of Python `s.endswith(p)`. -/
def strEndsWith (s p : String) : Bool := p.toList.isSuffixOf s.toList

/-- Value of a digit run, as read by Python `int()`. -/
def digitsToNat (ds : List Char) : Nat := ds.foldl (fun a c => 10 * a + (c.toNat - 48)) 0

/-- Helper for `pySplit`: split on whitespace runs, accumulator holds the
current (reversed) token. -/
def splitWsAux : List Char → List Char → List (List Char)
  | [], acc => if acc = [] then [] else [acc.reverse]
  | c :: rest, acc =>
    if c.isWhitespace then
      (if acc = [] then splitWsAux rest [] else acc.reverse :: splitWsAux rest [])
    else splitWsAux rest (c :: acc)

/-- Model of Python `str.split()` with no argument: split on runs of
whitespace, dropping empty tokens. -/
def pySplit (s : String) : List (List Char) := splitWsAux s.toList []

/-- Last path component: the part after the final `/` (model of the final
component taken by `pathlib.Path`; the converter only ever sees
forward-slash paths like `$data/maps/trees/oak/oak_stage05.i3d`). -/
def lastComponent (cs : List Char) : List Char :=
  cs.foldl (fun acc c => if c = '/' then [] else acc ++ [c]) []

/-- Index of the last `.` that separates a non-empty stem from a non-empty
suffix, if any (model of how `pathlib` finds the suffix of a name). -/
def stemSplitIdx (cs : List Char) : Option Nat :=
  (List.range cs.length).foldl
    (fun acc i => if cs.get? i = some '.' ∧ 0 < i ∧ i < cs.length - 1 then some i else acc)
    none

/-- Model of `pathlib.Path(p).stem`: final component without its last
extension. -/
def pathStem (s : String) : List Char :=
  let base := lastComponent s.toList
  match stemSplitIdx base with
  | some i => base.take i
  | none => base

/- ========================= numeric model ========================= -/

/-- A finite decimal as accepted by Python `float()`: value
`num / 10^frac * 10^ex`.  `num` carries the sign and all written digits,
`frac` counts the digits after the point, `ex` is the signed exponent of an
`e`-notation suffix. -/
structure PyDec where
  num : Int
  frac : Nat
  ex : Int
deriving DecidableEq, Repr

/-- Real value denoted by a parsed decimal. -/
noncomputable def PyDec.val (d : PyDec) : ℝ :=
  (d.num : ℝ) / (10 : ℝ) ^ d.frac * (10 : ℝ) ^ d.ex

/-- Signed integer from a sign flag and a digit value. -/
def mkInt (neg : Bool) (n : Nat) : Int := if neg then -(n : Int) else (n : Int)

/-- Strip leading and trailing whitespace (Python `float()` accepts it). -/
def stripWs (cs : List Char) : List Char :=
  ((cs.dropWhile Char.isWhitespace).reverse.dropWhile Char.isWhitespace).reverse

/-- Consume an optional sign. -/
def parseSign : List Char → Bool × List Char
  | '-' :: rest => (true, rest)
  | '+' :: rest => (false, rest)
  | cs => (false, cs)

/-- Model of the Python `float()` builtin on the decimal-literal core of its
grammar: optional surrounding whitespace, optional sign, digits with an
optional point, optional `e`/`E` exponent.  (`inf`, `nan`, underscores and
hex floats are outside the converter's input space and are rejected.)
Returns `none` exactly where `float()` raises `ValueError` on this core. -/
def parsePyFloat (cs0 : List Char) : Option PyDec :=
  let cs := stripWs cs0
  let sr := parseSign cs
  let ip := sr.2.takeWhile Char.isDigit
  let cs2 := sr.2.dropWhile Char.isDigit
  let fr : List Char × List Char :=
    match cs2 with
    | '.' :: rest => (rest.takeWhile Char.isDigit, rest.dropWhile Char.isDigit)
    | _ => ([], cs2)
  if ip = [] ∧ fr.1 = [] then none
  else
    match fr.2 with
    | [] => some ⟨mkInt sr.1 (digitsToNat (ip ++ fr.1)), fr.1.length, 0⟩
    | e :: rest =>
      if e = 'e' ∨ e = 'E' then
        let er := parseSign rest
        let ed := er.2.takeWhile Char.isDigit
        if ed = [] ∨ er.2.dropWhile Char.isDigit ≠ [] then none
        else some ⟨mkInt sr.1 (digitsToNat (ip ++ fr.1)), fr.1.length, mkInt er.1 (digitsToNat ed)⟩
      else none

/-- Option-valued traversal of a list (the semantics of
`tuple(float(v) for v in value.split())`: the first failing element makes
the whole conversion raise). -/
def traverseO {α β : Type} (f : α → Option β) : List α → Option (List β)
  | [] => some []
  | a :: rest =>
    match f a, traverseO f rest with
    | some b, some bs => some (b :: bs)
    | _, _ => none

/-- Default translation/rotation vector `(0, 0, 0)`. -/
def defaultZero3 : List PyDec := [⟨0, 0, 0⟩, ⟨0, 0, 0⟩, ⟨0, 0, 0⟩]

/-- Default scale vector `(1, 1, 1)`. -/
def defaultOne3 : List PyDec := [⟨1, 0, 0⟩, ⟨1, 0, 0⟩, ⟨1, 0, 0⟩]

/-- Embedding of `parse_vector` (source lines 345-352): `None` or an empty
string yields the default; otherwise each whitespace token is converted by
`float()`, and any `ValueError` yields the default.  A successfully parsed
vector is returned whatever its length. -/
def parse_vector (value : Option String) (default : List PyDec) : List PyDec :=
  match value with
  | none => default
  | some s =>
    if s = "" then default
    else
      match traverseO parsePyFloat (pySplit s) with
      | some xs => xs
      | none => default

/- ========================= pattern classifier ========================= -/

/-- One alternative of a tree-name pattern: a literal that must occur,
with a list of literals banned from occurring anywhere after it (the
regex shape `lit(?!.*ban1)(?!.*ban2)` used by `TREE_PATTERNS`). -/
structure PatAtom where
  lit : List Char
  bans : List (List Char)

/-- Plain literal pattern atom. -/
def pat (l : String) : PatAtom := ⟨l.toList, []⟩

/-- Literal with negative-lookahead bans. -/
def patNot (l : String) (bs : List String) : PatAtom := ⟨l.toList, bs.map String.toList⟩

/-- `re.search` truth value for one atom: the literal occurs at some
position after which none of the banned literals occurs. -/
def searchAtom (hay : List Char) (a : PatAtom) : Bool :=
  (List.range (hay.length + 1)).any fun i =>
    a.lit.isPrefixOf (hay.drop i) &&
    a.bans.all fun b => !(containsSeq b (hay.drop (i + a.lit.length)))

/-- `re.search` truth value for an alternation of atoms. -/
def searchPattern (hay : List Char) (atoms : List PatAtom) : Bool :=
  atoms.any (searchAtom hay)

/-- Embedding of `TREE_PATTERNS` (source lines 280-305) in dict insertion
order.  Each regex of the source is decomposed into its alternation of
literal/negative-lookahead atoms (`scots_pine` keeps its underscore exactly
as written; normalized names never contain one). -/
def TREE_PATTERNS : List (List PatAtom × String × Nat) :=
  [([pat ("americanelm")], ("americanElm"), 5),
   ([pat ("aspen")], ("aspen"), 6),
   ([pat ("beech")], ("beech"), 6),
   ([pat ("betulaermanii"), pat ("ermanii")], ("betulaErmanii"), 4),
   ([patNot ("birch") [("ermanii")]], ("birch"), 5),
   ([pat ("boxelder")], ("boxelder"), 3),
   ([pat ("cherry")], ("cherry"), 4),
   ([pat ("chineseelm")], ("chineseElm"), 4),
   ([pat ("downyserviceberry"), pat ("serviceberry")], ("downyServiceBerry"), 3),
   ([pat ("goldenrain")], ("goldenRain"), 4),
   ([pat ("japanesezelkova"), pat ("zelkova")], ("japaneseZelkova"), 4),
   ([pat ("lodgepolepine")], ("lodgepolePine"), 3),
   ([pat ("maple")], ("maple"), 5),
   ([pat ("northerncatalpa"), pat ("catalpa")], ("northernCatalpa"), 4),
   ([pat ("oak")], ("oak"), 5),
   ([pat ("pinussylvestris"), pat ("scotspine"), pat ("scots_pine")], ("pinusSylvestris"), 5),
   ([pat ("pinustabuliformis"), pat ("chinesepine")], ("pinusTabuliformis"), 5),
   ([pat ("poplar")], ("poplar"), 5),
   ([pat ("shagbarkhickory"), pat ("hickory")], ("shagbarkHickory"), 4),
   ([pat ("spruce")], ("spruce"), 5),
   ([pat ("tiliaamurensis"), patNot ("linden") [("station")], pat ("limetree")], ("tiliaAmurensis"), 4),
   ([pat ("willow")], ("willow"), 5),
   ([patNot ("pine") [("sylvestris"), ("tabuliformis")]], ("lodgepolePine"), 3)]

/-- Normalized node name: lowercased with `_`, `-` and spaces removed
(source line 336). -/
def normalizeName (name : String) : List Char :=
  (name.toList.map Char.toLower).filter fun c => c ≠ '_' ∧ c ≠ '-' ∧ c ≠ ' '

/-- Embedding of `detect_tree_type` (source lines 334-342): first pattern of
`TREE_PATTERNS`, in order, whose regex matches the normalized name. -/
def detect_tree_type (name : String) : Option (String × Nat) :=
  let nl := normalizeName name
  (TREE_PATTERNS.find? fun p => searchPattern nl p.1).map fun p => p.2

/-- Embedding of `MAX_STAGES` (source lines 308-331). -/
def MAX_STAGES : List (String × Nat) :=
  [(("AMERICANELM"), 5), (("ASPEN"), 6), (("BEECH"), 6), (("BETULAERMANII"), 4),
   (("BIRCH"), 5), (("BOXELDER"), 3), (("CHERRY"), 4), (("CHINESEELM"), 4),
   (("DOWNYSERVICEBERRY"), 3), (("GOLDENRAIN"), 4), (("JAPANESEZELKOVA"), 4),
   (("LODGEPOLEPINE"), 3), (("MAPLE"), 5), (("NORTHERNCATALPA"), 4), (("OAK"), 5),
   (("PINUSSYLVESTRIS"), 5), (("PINUSTABULIFORMIS"), 5), (("POPLAR"), 5),
   (("SHAGBARKHICKORY"), 4), (("SPRUCE"), 5), (("TILIAAMURENSIS"), 4), (("WILLOW"), 5)]

/-- First-match lookup in an association list (Python dict `.get`). -/
def lookupStr {α : Type} (m : List (String × α)) (k : String) : Option α :=
  (m.find? fun e => e.1 == k).map fun e => e.2

/-- `stage[_]?(\d+)` and `var[_]?(\d+)`: after the key at a position, an
optional underscore followed by at least one digit must follow; the digits
are captured greedily. -/
def numAfter (rest : List Char) : Option Nat :=
  let rest2 := match rest with
    | '_' :: t => t
    | _ => rest
  let ds := rest2.takeWhile Char.isDigit
  if ds = [] then none else some (digitsToNat ds)

/-- Model of `re.search(key ++ "[_]?(\d+)", hay)` returning the captured
number: leftmost position where the key occurs followed by an optional
underscore and at least one digit. -/
def reSearchNum (key : List Char) (hay : List Char) : Option Nat :=
  (List.range (hay.length + 1)).findSome? fun i =>
    if key.isPrefixOf (hay.drop i) then numAfter (hay.drop (i + key.length)) else none

/- ========================= tree type catalog ========================= -/

/-- One variation of a growth stage (`{filename, name (optional)}` dict of
the source; the direct-filename form stores no name key). -/
structure TreeVariation where
  filename : String
  varName : Option String
deriving DecidableEq, Repr

/-- Embedding of `TreeTypeStage` (source lines 47-51). -/
structure TreeTypeStage where
  stage_index : Nat
  variations : List TreeVariation
deriving DecidableEq, Repr

/-- Embedding of `TreeTypeDesc` (source lines 54-79). -/
structure TreeTypeDesc where
  name : String
  split_type : String
  title : String
  stages : List TreeTypeStage
deriving DecidableEq, Repr

/-- `max_stage` property: number of stages. -/
def TreeTypeDesc.max_stage (d : TreeTypeDesc) : Nat := d.stages.length

/-- Inner loop of `find_stage_by_filename`: first variation (1-based) of a
stage whose base name equals the searched base name or whose filename
contains it. -/
def findVarIdx (base_name : List Char) : Nat → List TreeVariation → Option Nat
  | _, [] => none
  | vi, v :: rest =>
    if (pathStem v.filename).map Char.toLower = base_name ∨
        containsSeq base_name ((lowerStr v.filename).toList) = true then some vi
    else findVarIdx base_name (vi + 1) rest

/-- Outer loop of `find_stage_by_filename` over the stages in order. -/
def findStageVar (base_name : List Char) : List TreeTypeStage → Option (Nat × Nat)
  | [] => none
  | st :: rest =>
    match findVarIdx base_name 1 st.variations with
    | some vi => some (st.stage_index, vi)
    | none => findStageVar base_name rest

/-- Embedding of `TreeTypeDesc.find_stage_by_filename` (source lines 66-79):
first match in stage order then variation order, `(max_stage, 1)` when
nothing matches. -/
def TreeTypeDesc.find_stage_by_filename (d : TreeTypeDesc) (filename : String) : Nat × Nat :=
  let base_name := (pathStem filename).map Char.toLower
  match findStageVar base_name d.stages with
  | some r => r
  | none => (d.max_stage, 1)

/-- The loader state `tree_types`: uppercased canonical name to descriptor
(a Python dict, embedded as an association list with replacing insert). -/
abbrev Catalog : Type := List (String × TreeTypeDesc)

/-- Dict lookup. -/
def catFind (cat : Catalog) (k : String) : Option TreeTypeDesc :=
  (List.find? (fun e => e.1 == k) cat).map fun e => e.2

/-- Dict assignment `self.tree_types[name_upper] = desc`: replaces any
existing entry with the same key. -/
def catInsert (cat : Catalog) (k : String) (d : TreeTypeDesc) : Catalog :=
  (k, d) :: List.filter (fun e => !(e.1 == k)) cat

/-- Embedding of `TreeTypeLoader.get_type` (source lines 236-238). -/
def get_type (cat : Catalog) (name : String) : Option TreeTypeDesc :=
  catFind cat (upperStr name)

/-- Embedding of `TreeTypeLoader.get_max_stage` (source lines 240-246):
descriptor stage count, else the `MAX_STAGES` table, else 5. -/
def get_max_stage (cat : Catalog) (name : String) : Nat :=
  match get_type cat name with
  | some t => t.max_stage
  | none => (lookupStr MAX_STAGES (upperStr name)).getD 5

/-- Embedding of `TreeTypeLoader.find_stage_and_variation` (source lines
248-258). -/
def find_stage_and_variation (cat : Catalog) (tree_type_name filename : String) : Nat × Nat :=
  match get_type cat tree_type_name with
  | some t => t.find_stage_by_filename filename
  | none =>
    let st := (reSearchNum (("stage").toList) ((lowerStr filename).toList)).getD
      (get_max_stage cat tree_type_name)
    let va := (reSearchNum (("var").toList) ((lowerStr filename).toList)).getD 1
    (st, va)

/-- A `variation` child element of a `stage` element. -/
structure VarElem where
  filenameA : Option String
  vnameA : Option String
deriving DecidableEq, Repr

/-- A `stage` element: optional direct `filename` attribute, child
`variation` elements. -/
structure StageElem where
  filenameA : Option String
  variations : List VarElem
deriving DecidableEq, Repr

/-- A `treeType` element of a descriptor document. -/
structure TreeTypeElem where
  nameA : Option String
  splitTypeA : Option String
  titleA : Option String
  stages : List StageElem
deriving DecidableEq, Repr

/-- A descriptor source as `load_from_xml` observes it: a missing file, a
file whose parse raises `ET.ParseError`, or a parsed list of `treeType`
elements (in document order). -/
inductive TreeXmlSource where
  | missing
  | malformed
  | parsed (entries : List TreeTypeElem)
deriving DecidableEq, Repr

/-- `$data/` macro resolution against the base directory (source lines
154-155 and 161-162); `str(base / rest)` joins with a slash. -/
def resolveDataPath (baseDir : Option String) (fn : String) : String :=
  match baseDir with
  | some b => if strStartsWith fn ("$data/") then b ++ ("/") ++ strDrop fn 6 else fn
  | none => fn

/-- Variations collected from `variation` child elements (source lines
159-164): every child contributes, with empty-string defaults. -/
def varsFromChildren (baseDir : Option String) (vs : List VarElem) : List TreeVariation :=
  vs.map fun v =>
    ⟨resolveDataPath baseDir (v.filenameA.getD ("")), some (v.vnameA.getD (""))⟩

/-- Variations of one `stage` element (source lines 150-164): a truthy
direct `filename` attribute wins, else the `variation` children. -/
def stageVariations (baseDir : Option String) (se : StageElem) : List TreeVariation :=
  match se.filenameA with
  | some f =>
    if f ≠ "" then [⟨resolveDataPath baseDir f, none⟩]
    else varsFromChildren baseDir se.variations
  | none => varsFromChildren baseDir se.variations

/-- Stage-collection loop (source lines 145-168): the index starts at 1 and
increments only when a stage with at least one variation is kept. -/
def buildStagesGo (baseDir : Option String) (idx : Nat) : List StageElem → List TreeTypeStage
  | [] => []
  | se :: rest =>
    let vars := stageVariations baseDir se
    if vars ≠ [] then ⟨idx, vars⟩ :: buildStagesGo baseDir (idx + 1) rest
    else buildStagesGo baseDir idx rest

/-- Stages of one `treeType` element. -/
def buildStages (baseDir : Option String) (ses : List StageElem) : List TreeTypeStage :=
  buildStagesGo baseDir 1 ses

/-- The key/descriptor a `treeType` element registers, if any (source lines
136-177): skipped when the name is falsy or no stage survives. -/
def registeredEntry (baseDir : Option String) (e : TreeTypeElem) : Option (String × TreeTypeDesc) :=
  let name := e.nameA.getD ("")
  if name = "" then none
  else
    let stages := buildStages baseDir e.stages
    if stages = [] then none
    else some (upperStr name, ⟨name, e.splitTypeA.getD (upperStr name), e.titleA.getD name, stages⟩)

/-- Loop body of `load_from_xml`: register the element's descriptor (dict
assignment) and bump the count, or leave the state alone. -/
def processEntry (baseDir : Option String) (acc : Catalog × Nat) (e : TreeTypeElem) : Catalog × Nat :=
  match registeredEntry baseDir e with
  | some kd => (catInsert acc.1 kd.1 kd.2, acc.2 + 1)
  | none => acc

/-- Embedding of `TreeTypeLoader.load_from_xml` (source lines 113-180):
missing file or parse error return count 0 and leave the catalog untouched
(the `try` block ends before any mutation); otherwise every `treeType`
element is processed in order. -/
def load_from_xml (cat : Catalog) (src : TreeXmlSource) (baseDir : Option String) : Catalog × Nat :=
  match src with
  | .missing => (cat, 0)
  | .malformed => (cat, 0)
  | .parsed es => es.foldl (processEntry baseDir) (cat, 0)

/-- A sequence of `load_from_xml` calls (each source with its base
directory) applied to the empty catalog, as `load_from_map` and the CLI
perform them. -/
def loadAll (srcs : List (TreeXmlSource × Option String)) : Catalog :=
  srcs.foldl (fun c sb => (load_from_xml c sb.1 sb.2).1) []

/- ========================= transform engine ========================= -/

/-- Row-major homogeneous 4x4 matrix over the reals. -/
abbrev Mat4 : Type := Fin 4 → Fin 4 → ℝ

/-- Embedding of `multiply_matrices` (source lines 355-362): the triple
loop accumulating `m1[i][k] * m2[k][j]`. -/
noncomputable def multiply_matrices (m1 m2 : Mat4) : Mat4 :=
  fun i j => ∑ k : Fin 4, m1 i k * m2 k j

/-- `math.radians`. -/
noncomputable def radiansR (d : ℝ) : ℝ := d * (Real.pi / 180)

/-- `math.degrees`. -/
noncomputable def degreesR (x : ℝ) : ℝ := x * (180 / Real.pi)

/-- Embedding of `rotation_matrix` (source lines 365-381): ZYX Euler
composition from angles in degrees. -/
noncomputable def rotation_matrix (rxd ryd rzd : ℝ) : Mat4 :=
  let rx := radiansR rxd
  let ry := radiansR ryd
  let rz := radiansR rzd
  let cx := Real.cos rx
  let sx := Real.sin rx
  let cy := Real.cos ry
  let sy := Real.sin ry
  let cz := Real.cos rz
  let sz := Real.sin rz
  fun i j =>
    if i = 0 then
      (if j = 0 then cy * cz else if j = 1 then -(cy * sz) else if j = 2 then sy else 0)
    else if i = 1 then
      (if j = 0 then sx * sy * cz + cx * sz else if j = 1 then -(sx * sy * sz) + cx * cz
       else if j = 2 then -(sx * cy) else 0)
    else if i = 2 then
      (if j = 0 then -(cx * sy * cz) + sx * sz else if j = 1 then cx * sy * sz + sx * cz
       else if j = 2 then cx * cy else 0)
    else (if j = 3 then 1 else 0)

/-- Embedding of `transform_matrix` (source lines 384-396): rows 0-2 of the
rotation scaled by the scale components, translation written into column 3,
row 3 untouched. -/
noncomputable def transform_matrix (tx ty tz rxd ryd rzd sxs sys szs : ℝ) : Mat4 :=
  let rot := rotation_matrix rxd ryd rzd
  fun i j =>
    if i = 0 then (if j = 3 then tx else rot i j * sxs)
    else if i = 1 then (if j = 3 then ty else rot i j * sys)
    else if i = 2 then (if j = 3 then tz else rot i j * szs)
    else rot i j

/-- Mathematical `math.atan2`: angle of the point `(x, y)` in `(-pi, pi]`
(signed-zero distinctions do not exist over `ℝ`). -/
noncomputable def atan2 (y x : ℝ) : ℝ :=
  if 0 < x then Real.arctan (y / x)
  else if x < 0 then
    (if 0 ≤ y then Real.arctan (y / x) + Real.pi else Real.arctan (y / x) - Real.pi)
  else (if 0 < y then Real.pi / 2 else if y < 0 then -(Real.pi / 2) else 0)

/-- Embedding of `extract_world_transform` (source lines 399-416): position
from column 3, rotation recovered by `asin` of the clamped `[0][2]` entry
and `atan2` of the remaining entries, with the gimbal-lock branch guarded
by `abs(cos(ry)) > 0.001`. -/
noncomputable def extract_world_transform (m : Mat4) : (ℝ × ℝ × ℝ) × (ℝ × ℝ × ℝ) :=
  let x := m 0 3
  let y := m 1 3
  let z := m 2 3
  let sy := m 0 2
  let ry := Real.arcsin (max (-1) (min 1 sy))
  if |Real.cos ry| > 0.001 then
    let rx := atan2 (-(m 1 2)) (m 2 2)
    let rz := atan2 (-(m 0 1)) (m 0 0)
    ((x, y, z), (degreesR rx, degreesR ry, degreesR rz))
  else
    let rx := atan2 (m 2 1) (m 1 1)
    ((x, y, z), (degreesR rx, degreesR ry, degreesR 0))

/-- The identity starting matrix of `find_trees` (source line 511). -/
noncomputable def identity_matrix : Mat4 := fun i j => if i = j then 1 else 0

/- ========================= scene document ========================= -/

mutual
/-- A scene element (namespace already stripped): tag, raw attributes as
`elem.get` sees them, and child elements in document order. -/
inductive I3DNode where
  | mk (tag : String) (nameA : Option String) (referenceId : Option String)
       (translation : Option String) (rotation : Option String) (scaleA : Option String)
       (children : I3DForest)
/-- A list of scene elements (mutual with `I3DNode`). -/
inductive I3DForest where
  | nil
  | cons (head : I3DNode) (tail : I3DForest)
end

/-- Tag of a node. -/
def I3DNode.tagOf : I3DNode → String
  | .mk t _ _ _ _ _ _ => t

/-- `elem.get('name', '')`. -/
def I3DNode.nameOf : I3DNode → String
  | .mk _ n _ _ _ _ _ => n.getD ("")

/-- `elem.get('referenceId')`. -/
def I3DNode.refIdOf : I3DNode → Option String
  | .mk _ _ r _ _ _ _ => r

/-- Children of a node. -/
def I3DNode.childrenOf : I3DNode → I3DForest
  | .mk _ _ _ _ _ _ cs => cs

/-- Positional indexing into a forest. -/
def forestGet? : I3DForest → Nat → Option I3DNode
  | .nil, _ => none
  | .cons c _, 0 => some c
  | .cons _ rest, i + 1 => forestGet? rest i

/-- The tags `scan_node` recurses into (source line 609). -/
def allowedTag (t : String) : Bool :=
  t == "TransformGroup" || t == "Shape" || t == "ReferenceNode"

/- ========================= file registry ========================= -/

/-- A `File` element of the i3d `Files` section. -/
structure FileElem where
  fileIdA : Option String
  filenameA : Option String
deriving DecidableEq, Repr

/-- The registry `file_id_to_tree_type`: fileId to (type, stage,
variation), a Python dict embedded as an association list with replacing
insert. -/
abbrev FileMap : Type := List (String × String × Nat × Nat)

/-- Dict assignment into the registry. -/
def fmInsert (fm : FileMap) (k : String) (v : String × Nat × Nat) : FileMap :=
  (k, v) :: List.filter (fun e => !(e.1 == k)) fm

/-- Registry lookup (`ref_id in map` and the subsequent access). -/
def refLookup (fm : FileMap) (k : String) : Option (String × Nat × Nat) :=
  (List.find? (fun e => e.1 == k) fm).map fun e => e.2

/-- Embedding of `_build_file_id_map` (source lines 453-490): every `File`
element whose filename contains `/trees/` and ends with `.i3d`, classified
by `detect_tree_type` on the stem; stage and variation come from the loader
when one is installed, else from the `stageNN`/`varNN` tokens of the stem.
Elements with no `fileId` attribute would be stored under the Python `None`
key, which no truthy `referenceId` can reach; they are skipped. -/
def build_file_id_map (loader : Option Catalog) (files : List FileElem) : FileMap :=
  files.foldl
    (fun fm fe =>
      match fe.fileIdA with
      | none => fm
      | some fid =>
        let fn := fe.filenameA.getD ("")
        if containsSeq (("/trees/").toList) fn.toList && strEndsWith fn (".i3d") then
          let basename : String := ⟨pathStem fn⟩
          match detect_tree_type basename with
          | some ti =>
            match loader with
            | some cat =>
              let sv := find_stage_and_variation cat ti.1 basename
              fmInsert fm fid (ti.1, sv.1, sv.2)
            | none =>
              let stage := (reSearchNum (("stage").toList) ((lowerStr basename).toList)).getD ti.2
              let variation := (reSearchNum (("var").toList) ((lowerStr basename).toList)).getD 1
              fmInsert fm fid (ti.1, stage, variation)
          | none => fm
        else fm)
    []

/- ========================= instance collector ========================= -/

/-- Embedding of `TreeInstance` (source lines 82-104).  The `element` and
`parent` references of the source are represented by the index path paired
with each instance in the scan output; positions and rotations are real
numbers, the scale keeps the parsed decimals. -/
structure TreeInst where
  node_name : String
  tree_type : String
  x : ℝ
  y : ℝ
  z : ℝ
  rx : ℝ
  ry : ℝ
  rz : ℝ
  sx : PyDec
  sy : PyDec
  sz : PyDec
  growth_state : Nat
  variation_index : Nat

/-- Truthiness of the `parent_name` filter (`if parent_name and ...`). -/
def pnActive (pn : Option String) : Bool :=
  match pn with
  | some f => f ≠ ""
  | none => false

/-- The filter check `parent_name and name.lower() == parent_name.lower()`
(source line 523). -/
def pnMatches (pn : Option String) (name : String) : Bool :=
  match pn with
  | some f => (f ≠ "" : Bool) && (lowerStr name == lowerStr f)
  | none => false

/-- The accesses `v[0], v[1], v[2]` on a parsed vector; `none` models the
IndexError Python raises when the vector is shorter than three. -/
def get3 (xs : List PyDec) : Option (PyDec × PyDec × PyDec) :=
  match xs with
  | a :: b :: c :: _ => some (a, b, c)
  | _ => none

/-- Build a `TreeInstance` from the decomposed world matrix (the
`TreeInstance(...)` constructions at source lines 549-565 and 586-602). -/
noncomputable def mkTreeInst (name tree_type : String) (world : Mat4)
    (s0 s1 s2 : PyDec) (growth_state variation : Nat) : TreeInst :=
  let wp := extract_world_transform world
  ⟨name, tree_type, wp.1.1, wp.1.2.1, wp.1.2.2, wp.2.1, wp.2.2.1, wp.2.2.2,
   s0, s1, s2, growth_state, variation⟩

/-- Emission step of `scan_node` (source lines 541-602): a `ReferenceNode`
with a truthy, registered `referenceId` emits when unfiltered or
collecting; otherwise a `TransformGroup`/`Shape` whose name the fallback
classifier recognizes emits under the same condition, with stage and
variation read from the name's `stageNN`/`varNN` tokens. -/
noncomputable def ownInstances (pn : Option String) (fm : FileMap) (path : List Nat)
    (tag name : String) (refId : Option String) (world : Mat4)
    (s0 s1 s2 : PyDec) (inTP : Bool) : List (List Nat × TreeInst) :=
  if tag = "ReferenceNode" then
    match refId with
    | some ref_id =>
      if ref_id ≠ "" then
        match refLookup fm ref_id with
        | some tsv =>
          if pnActive pn = false ∨ inTP = true then
            [(path, mkTreeInst name tsv.1 world s0 s1 s2 tsv.2.1 tsv.2.2)]
          else []
        | none => []
      else []
    | none => []
  else if tag = "TransformGroup" ∨ tag = "Shape" then
    match detect_tree_type name with
    | some td =>
      if pnActive pn = false ∨ inTP = true then
        [(path, mkTreeInst name td.1 world s0 s1 s2
            ((reSearchNum (("stage").toList) ((lowerStr name).toList)).getD td.2)
            ((reSearchNum (("var").toList) ((lowerStr name).toList)).getD 1))]
      else []
    | none => []
  else []

mutual
/-- Embedding of `scan_node` (source lines 513-610).  The sticky
`in_tree_parent` flag is set when the name matches the filter; the three
transform attributes are parsed with their defaults; indexing a too-short
vector aborts the whole traversal (`none`); the node may emit an instance
(paired with its path), then the children with scannable tags are visited
with this node's world matrix. -/
noncomputable def scanNode (pn : Option String) (fm : FileMap) (path : List Nat)
    (n : I3DNode) (parent_matrix : Mat4) (in_tree_parent : Bool) :
    Option (List (List Nat × TreeInst)) :=
  match n with
  | .mk tag nameA refId trA roA scA children =>
    let name := nameA.getD ("")
    let inTP := pnMatches pn name || in_tree_parent
    let trans := parse_vector trA defaultZero3
    let rot := parse_vector roA defaultZero3
    let scale := parse_vector scA defaultOne3
    match get3 trans, get3 rot, get3 scale with
    | some t3, some r3, some s3 =>
      let local_matrix := transform_matrix t3.1.val t3.2.1.val t3.2.2.val
        r3.1.val r3.2.1.val r3.2.2.val s3.1.val s3.2.1.val s3.2.2.val
      let world_matrix := multiply_matrices parent_matrix local_matrix
      let own := ownInstances pn fm path tag name refId world_matrix s3.1 s3.2.1 s3.2.2 inTP
      match scanChildren pn fm path 0 children world_matrix inTP with
      | some rest => some (own ++ rest)
      | none => none
    | _, _, _ => none

/-- The child loop of `scan_node` (source lines 604-610): children are
numbered by their position in the full child list, and only
`TransformGroup`/`Shape`/`ReferenceNode` children are scanned. -/
noncomputable def scanChildren (pn : Option String) (fm : FileMap) (path : List Nat) (i : Nat)
    (cs : I3DForest) (world : Mat4) (in_tree_parent : Bool) :
    Option (List (List Nat × TreeInst)) :=
  match cs with
  | .nil => some []
  | .cons c rest =>
    match (if allowedTag c.tagOf then scanNode pn fm (path ++ [i]) c world in_tree_parent
           else some []) with
    | some l1 =>
      match scanChildren pn fm path (i + 1) rest world in_tree_parent with
      | some l2 => some (l1 ++ l2)
      | none => none
    | none => none
end

/-- The top loop of `find_trees` (source lines 618-619): every direct child
of the `Scene` element is scanned from the identity matrix, whatever its
tag. -/
noncomputable def scanScene (pn : Option String) (fm : FileMap) (i : Nat)
    (cs : I3DForest) (b : Bool) : Option (List (List Nat × TreeInst)) :=
  match cs with
  | .nil => some []
  | .cons c rest =>
    match scanNode pn fm [i] c identity_matrix b with
    | some l1 =>
      match scanScene pn fm (i + 1) rest b with
      | some l2 => some (l1 ++ l2)
      | none => none
    | none => none

/-- Embedding of `I3DTreeExtractor.find_trees` (source lines 492-621) on a
present `Scene` element: the file registry is built, then the scene
children are scanned; the initial collecting flag is `parent_name is None`.
Each emitted instance is paired with the index path of its node. -/
noncomputable def find_treesP (pn : Option String) (loader : Option Catalog)
    (files : List FileElem) (scene : I3DForest) : Option (List (List Nat × TreeInst)) :=
  scanScene pn (build_file_id_map loader files) 0 scene pn.isNone

/- ========================= traversal specification ========================= -/

/-- The node reached from `n` by a path of child indices, descending only
through scannable tags (the guard of the child loop). -/
def visitPath : I3DNode → List Nat → Option I3DNode
  | n, [] => some n
  | n, i :: rest =>
    match forestGet? n.childrenOf i with
    | some c => if allowedTag c.tagOf then visitPath c rest else none
    | none => none

/-- The node reached from the scene root by a non-empty path; the first
step is unguarded because `find_trees` scans every direct scene child. -/
def sceneVisitPath (scene : I3DForest) : List Nat → Option I3DNode
  | [] => none
  | i :: rest =>
    match forestGet? scene i with
    | some c => visitPath c rest
    | none => none

/-- Resolvability of an optional `referenceId` attribute: truthy and
present in the registry. -/
def refResolvableParts (fm : FileMap) (refId : Option String) : Bool :=
  match refId with
  | some rid => (rid ≠ "" : Bool) && (refLookup fm rid).isSome
  | none => false

/-- Whether a node's reference resolves in the registry. -/
def refResolvable (fm : FileMap) (m : I3DNode) : Bool :=
  refResolvableParts fm m.refIdOf

/-- Whether the emission step produces an instance, as a function of the
parts it inspects (tag, name, reference). -/
def emitsParts (fm : FileMap) (tag name : String) (refId : Option String) : Bool :=
  (tag == "ReferenceNode" && refResolvableParts fm refId) ||
  ((tag == "TransformGroup" || tag == "Shape") && (detect_tree_type name).isSome)

/-- Whether a node emits an instance when the collecting condition holds. -/
def emitsHere (fm : FileMap) (m : I3DNode) : Bool :=
  emitsParts fm m.tagOf m.nameOf m.refIdOf

/-- Whether an optionally-found node name-matches the filter. -/
def nameMatchAt (pn : Option String) (o : Option I3DNode) : Bool :=
  match o with
  | some m => pnMatches pn m.nameOf
  | none => false

/-- The collecting condition observed at the end of a path `s` below `n`
entered with flag `b`: no active filter, or the flag already set, or some
node along the path (including both ends) matches the filter name. -/
def stickyOkB (pn : Option String) (b : Bool) (n : I3DNode) (s : List Nat) : Bool :=
  !(pnActive pn) || b ||
    (List.range (s.length + 1)).any fun k => nameMatchAt pn (visitPath n (s.take k))

/-- An instance was collected for the node at path `q` (the claims quantify
over the optional result of `find_trees`). -/
def memAt (r : Option (List (List Nat × TreeInst))) (q : List Nat) : Prop :=
  ∃ l inst, r = some l ∧ (q, inst) ∈ l

/-- Whether an optionally-found node's lowercased name equals the
lowercased filter name. -/
def nameMatchLower (f : String) (o : Option I3DNode) : Bool :=
  match o with
  | some a => lowerStr a.nameOf == lowerStr f
  | none => false

/-- Some non-empty prefix of `q` (the node itself included) reaches a node
whose name equals the filter name case-insensitively. -/
def ancestorMatchesB (f : String) (scene : I3DForest) (q : List Nat) : Bool :=
  (List.range (q.length + 1)).any fun k =>
    (k ≠ 0 : Bool) && nameMatchLower f (sceneVisitPath scene (q.take k))

/- ========================= serializer ========================= -/

/-- The max stage used by `generate_treeplant_xml` (source lines 666-669):
the loader when one is installed, else the `MAX_STAGES` table, else 5. -/
def serializer_max_stage (loader : Option Catalog) (tree_type : String) : Nat :=
  match loader with
  | some l => get_max_stage l tree_type
  | none => (lookupStr MAX_STAGES (upperStr tree_type)).getD 5

/-- One record of the generated treePlant document (source lines 650-681):
type uppercased, stage, variation kept only when it differs from 1, the
growing flag, and the constant placeholder.  The formatted position and
rotation strings render the instance's real coordinates and are not
re-modelled here. -/
structure TreeRecord where
  treeType : String
  growthStateI : Nat
  variationIndex : Option Nat
  isGrowing : Bool
  splitShapeFileId : Int

/-- Emission of one `<tree .../>` record by `generate_treeplant_xml`. -/
def emit_tree_record (loader : Option Catalog) (t : TreeInst) : TreeRecord :=
  let max_stage := serializer_max_stage loader t.tree_type
  ⟨upperStr t.tree_type, t.growth_state,
   (if t.variation_index ≠ 1 then some t.variation_index else none),
   (if t.growth_state ≥ max_stage then false else true), -1⟩

/-- Embedding of `generate_treeplant_xml`'s record list (source lines
642-686), in input order. -/
def generate_treeplant (loader : Option Catalog) (trees : List TreeInst) : List TreeRecord :=
  trees.map (emit_tree_record loader)

/- ========================= derived specifications ========================= -/

/-- The descriptor that the last registering `treeType` element of a source
stores under key `k`, if any (later elements override earlier ones, so the
list is searched from the right). -/
def lastRegistered (bd : Option String) (es : List TreeTypeElem) (k : String) :
    Option TreeTypeDesc :=
  match es with
  | [] => none
  | e :: rest =>
    match lastRegistered bd rest k with
    | some d => some d
    | none =>
      match registeredEntry bd e with
      | some kd => if kd.1 = k then some kd.2 else none
      | none => none

/-- Well-formedness of a descriptor's stages: 1-based contiguous indices
and at least one variation per stage. -/
def stagesWellFormed (d : TreeTypeDesc) : Prop :=
  (∀ (i : Nat) (st : TreeTypeStage), d.stages.get? i = some st → st.stage_index = i + 1) ∧
  (∀ st ∈ d.stages, st.variations ≠ [])

/-- Every descriptor held by a catalog has well-formed stages. -/
def catalogWF (c : Catalog) : Prop :=
  ∀ k d, catFind c k = some d → stagesWellFormed d

/-- What `scanNode` collects below `n` entered at path `p` with flag `b`:
the paths `p ++ s` whose visited node emits while the collecting condition
holds. -/
def scanSpec (pn : Option String) (fm : FileMap) (n : I3DNode) (p : List Nat)
    (b : Bool) (q : List Nat) : Prop :=
  ∃ s m, q = p ++ s ∧ visitPath n s = some m ∧ emitsHere fm m = true ∧
    stickyOkB pn b n s = true

/-- What the child loop starting at index `i` collects. -/
def childScanSpec (pn : Option String) (fm : FileMap) (cs : I3DForest) (p : List Nat)
    (i : Nat) (b : Bool) (q : List Nat) : Prop :=
  ∃ j c, forestGet? cs j = some c ∧ allowedTag c.tagOf = true ∧
    scanSpec pn fm c (p ++ [i + j]) b q

/-- What the scene loop starting at index `i` collects. -/
def sceneScanSpec (pn : Option String) (fm : FileMap) (cs : I3DForest)
    (i : Nat) (b : Bool) (q : List Nat) : Prop :=
  ∃ j c, forestGet? cs j = some c ∧ scanSpec pn fm c [i + j] b q

/- ========================= concrete example data ========================= -/

/-- Example file table: one oak tree asset under fileId 7. -/
def exFiles : List FileElem := [⟨some ("7"), some ("$data/maps/trees/oak/oak_stage05.i3d")⟩]

/-- Example resolvable reference node outside the filtered subtree. -/
def exRef1 : I3DNode := .mk ("ReferenceNode") (some ("tree1")) (some ("7")) none none none .nil

/-- Example resolvable reference node inside the filtered subtree. -/
def exRef2 : I3DNode := .mk ("ReferenceNode") (some ("tree2")) (some ("7")) none none none .nil

/-- Example group not matching the filter name. -/
def exGroupA : I3DNode :=
  .mk ("TransformGroup") (some ("decor")) none none none none (.cons exRef1 .nil)

/-- Example group matching the filter name `trees` case-insensitively. -/
def exGroupB : I3DNode :=
  .mk ("TransformGroup") (some ("Trees")) none none none none (.cons exRef2 .nil)

/-- Example scene for the subtree-filter witness. -/
def exScene : I3DForest := .cons exGroupA (.cons exGroupB .nil)

/-- Example reference node whose reference id 99 is absent from the
registry, while its own name matches the fallback classifier; it has a
resolvable reference child. -/
def exUnresolved : I3DNode :=
  .mk ("ReferenceNode") (some ("oak_stage03")) (some ("99")) none none none (.cons exRef1 .nil)

/-- Example scene for the unresolved-reference witness. -/
def exScene2 : I3DForest := .cons exUnresolved .nil

/-- Example scene whose root node carries a two-component numeric
translation attribute. -/
def exShortVecScene : I3DForest :=
  .cons (.mk ("TransformGroup") (some ("g")) none (some ("1 2")) none none .nil) .nil

/-- A stage element with a direct filename. -/
def exStage : StageElem := ⟨some ("s.i3d"), []⟩

/-- Descriptor source defining OAK with 3 stages. -/
def exSrcOak3 : TreeXmlSource := .parsed [⟨some ("OAK"), none, none, [exStage, exStage, exStage]⟩]

/-- The `treeType` elements of a source redefining OAK with 5 stages. -/
def exEntriesOak5 : List TreeTypeElem :=
  [⟨some ("OAK"), none, none, [exStage, exStage, exStage, exStage, exStage]⟩]

/-- The descriptor that loading `exEntriesOak5` registers. -/
def exDescOak5 : TreeTypeDesc :=
  ⟨("OAK"), ("OAK"), ("OAK"),
   [⟨1, [⟨("s.i3d"), none⟩]⟩, ⟨2, [⟨("s.i3d"), none⟩]⟩, ⟨3, [⟨("s.i3d"), none⟩]⟩,
    ⟨4, [⟨("s.i3d"), none⟩]⟩, ⟨5, [⟨("s.i3d"), none⟩]⟩]⟩

/-- Descriptor source for the stage-invariant witness: BIRCH with an
empty middle stage entry (no filename, no variations) that loading skips. -/
def exSrcBirch : TreeXmlSource :=
  .parsed [⟨some ("birch"), none, none, [exStage, ⟨none, []⟩, exStage]⟩]

/-- The descriptor that loading `exSrcBirch` registers: two contiguous
stages, the empty entry skipped. -/
def exDescBirch : TreeTypeDesc :=
  ⟨("birch"), ("BIRCH"), ("birch"),
   [⟨1, [⟨("s.i3d"), none⟩]⟩, ⟨2, [⟨("s.i3d"), none⟩]⟩]⟩

/-- Finding a key survives filtering out a different key. -/
theorem find?_filter_ne (cat : Catalog) (k k' : String) (h : ¬ k' = k) :
    List.find? (fun e => e.1 == k) (List.filter (fun e => !(e.1 == k')) cat) =
      List.find? (fun e => e.1 == k) cat := by
  induction cat with
  | nil => rfl
  | cons e rest ih =>
    by_cases he : e.1 = k'
    · have h1 : (e.1 == k) = false := by
        simp only [beq_eq_false_iff_ne, ne_eq]
        intro hh
        exact h (he ▸ hh)
      have h2 : (!(e.1 == k')) = false := by simp [he]
      rw [List.filter_cons, h2, if_neg (by simp), ih, List.find?_cons, h1]
    · have h2 : (!(e.1 == k')) = true := by simp [he]
      rw [List.filter_cons, h2, if_pos rfl, List.find?_cons, List.find?_cons]
      cases h3 : (e.1 == k) with
      | true => rfl
      | false => exact ih

/-- Lookup after a replacing insert. -/
theorem catFind_insert (cat : Catalog) (k' k : String) (d : TreeTypeDesc) :
    catFind (catInsert cat k' d) k = if k' = k then some d else catFind cat k := by
  by_cases h : k' = k
  · simp [catFind, catInsert, List.find?_cons, h]
  · simp only [catFind, catInsert, List.find?_cons, if_neg h]
    have h1 : (k' == k) = false := by simp [h]
    simp [h1, find?_filter_ne _ _ _ h]

/-- Lookup after processing a parsed source: the last registering element
for the key wins, else the catalog is unchanged at that key. -/
theorem catFind_load_parsed (bd : Option String) (es : List TreeTypeElem) :
    ∀ (cat : Catalog) (cnt : Nat) (k : String),
      catFind (es.foldl (processEntry bd) (cat, cnt)).1 k =
        match lastRegistered bd es k with
        | some d => some d
        | none => catFind cat k := by
  induction es with
  | nil => intro cat cnt k; rfl
  | cons e rest ih =>
    intro cat cnt k
    rw [List.foldl_cons]
    cases hre : registeredEntry bd e with
    | some kd =>
      have hpe : processEntry bd (cat, cnt) e = (catInsert cat kd.1 kd.2, cnt + 1) := by
        simp [processEntry, hre]
      rw [hpe, ih]
      simp only [lastRegistered, hre]
      cases hlr : lastRegistered bd rest k with
      | some d => simp
      | none =>
        simp only [catFind_insert]
        by_cases hk : kd.1 = k <;> simp [hk]
    | none =>
      have hpe : processEntry bd (cat, cnt) e = (cat, cnt) := by
        simp [processEntry, hre]
      rw [hpe, ih]
      simp only [lastRegistered, hre]
      cases hlr : lastRegistered bd rest k <;> simp

/-- C2: loading a descriptor source replaces any existing descriptor sharing
the same uppercased canonical name, last loaded wins: after loading any
source A and then a parsed source B, every key registered by B maps to the
descriptor built from the last registering element of B, whatever A and
the prior catalog contained. -/
theorem c2_catalog_last_wins (cat : Catalog) (srcA : TreeXmlSource) (bdA bdB : Option String)
    (esB : List TreeTypeElem) (k : String) (d : TreeTypeDesc)
    (h : lastRegistered bdB esB k = some d) :
    catFind (load_from_xml (load_from_xml cat srcA bdA).1 (TreeXmlSource.parsed esB) bdB).1 k
      = some d := by
  show catFind (esB.foldl (processEntry bdB) ((load_from_xml cat srcA bdA).1, 0)).1 k = some d
  rw [catFind_load_parsed, h]

theorem c2_catalog_last_wins_witness :
    lastRegistered none exEntriesOak5 (upperStr ("OAK")) = some exDescOak5 ∧
    get_max_stage (load_from_xml (load_from_xml [] exSrcOak3 none).1
      (TreeXmlSource.parsed exEntriesOak5) none).1 ("OAK") = 5 := by
  have h : lastRegistered none exEntriesOak5 (upperStr ("OAK")) = some exDescOak5 := by decide
  refine ⟨h, ?_⟩
  have h2 := c2_catalog_last_wins [] exSrcOak3 none none exEntriesOak5 (upperStr ("OAK")) exDescOak5 h
  simp only [get_max_stage, get_type, h2]
  decide

/-- C7: for a descriptor source whose content fails to parse, `load_from_xml`
returns count 0 and leaves the catalog state exactly unchanged, so no
partial type from the failed source is registered and the run continues. -/
theorem c7_malformed_load (cat : Catalog) (bd : Option String) :
    load_from_xml cat TreeXmlSource.malformed bd = (cat, 0) := rfl

/-- C5: the fallback name classifier, which evaluates the fixed pattern list
in order with first match wins on the normalized name, classifies
`pinussylvestris_stage03` as type `pinusSylvestris` with max stage 5 and
not as the generic pine fallback `(lodgepolePine, 3)`. -/
theorem c5_pattern_order : detect_tree_type ("pinussylvestris_stage03") = some (("pinusSylvestris"), 5) := by
  decide

/-- C8: matrix composition as implemented by `multiply_matrices` is
associative. -/
theorem c8_multiply_assoc (A B C : Mat4) :
    multiply_matrices (multiply_matrices A B) C = multiply_matrices A (multiply_matrices B C) := by
  funext i l
  simp only [multiply_matrices, Finset.sum_mul, Finset.mul_sum]
  rw [Finset.sum_comm]
  refine Finset.sum_congr rfl fun j _ => Finset.sum_congr rfl fun k _ => ?_
  ring

/-- C1: for every emitted tree record the growing flag is false exactly when
the growth stage is at least the max stage the serializer derives for the
type (loader `get_max_stage`, else the `MAX_STAGES` table, else 5), and
true exactly when the stage is strictly below it. -/
theorem c1_growing_flag (loader : Option Catalog) (t : TreeInst) :
    ((emit_tree_record loader t).isGrowing = false ↔
      serializer_max_stage loader t.tree_type ≤ t.growth_state) ∧
    ((emit_tree_record loader t).isGrowing = true ↔
      t.growth_state < serializer_max_stage loader t.tree_type) := by
  simp only [emit_tree_record]
  by_cases h : t.growth_state ≥ serializer_max_stage loader t.tree_type
  · rw [if_pos h]
    exact ⟨iff_of_true rfl h, iff_of_false (by decide) (by omega)⟩
  · rw [if_neg h]
    exact ⟨iff_of_false (by decide) (by omega), iff_of_true rfl (by omega)⟩

/-- Stage indices produced by the collection loop are contiguous from the
starting index. -/
theorem buildStagesGo_stage_index (bd : Option String) :
    ∀ (ses : List StageElem) (idx i : Nat) (st : TreeTypeStage),
      (buildStagesGo bd idx ses).get? i = some st → st.stage_index = idx + i := by
  intro ses
  induction ses with
  | nil => intro idx i st h; simp [buildStagesGo] at h
  | cons se rest ih =>
    intro idx i st h
    simp only [buildStagesGo] at h
    by_cases hv : stageVariations bd se ≠ []
    · rw [if_pos hv] at h
      cases i with
      | zero =>
        cases h
        rfl
      | succ i' =>
        rw [List.get?_cons_succ] at h
        rw [ih (idx + 1) i' st h]
        omega
    · rw [if_neg hv] at h
      exact ih idx i st h

/-- Every stage kept by the collection loop has at least one variation. -/
theorem buildStagesGo_variations (bd : Option String) :
    ∀ (ses : List StageElem) (idx : Nat) (st : TreeTypeStage),
      st ∈ buildStagesGo bd idx ses → st.variations ≠ [] := by
  intro ses
  induction ses with
  | nil => intro idx st h; simp [buildStagesGo] at h
  | cons se rest ih =>
    intro idx st h
    simp only [buildStagesGo] at h
    by_cases hv : stageVariations bd se ≠ []
    · rw [if_pos hv] at h
      rcases List.mem_cons.mp h with h1 | h1
      · subst h1; exact hv
      · exact ih _ _ h1
    · rw [if_neg hv] at h
      exact ih _ _ h

/-- A registered descriptor has well-formed stages. -/
theorem registeredEntry_wf (bd : Option String) (e : TreeTypeElem)
    (kd : String × TreeTypeDesc) (h : registeredEntry bd e = some kd) :
    stagesWellFormed kd.2 := by
  simp only [registeredEntry] at h
  by_cases h1 : e.nameA.getD ("") = ""
  · rw [if_pos h1] at h; cases h
  · rw [if_neg h1] at h
    by_cases h2 : buildStages bd e.stages = []
    · rw [if_pos h2] at h; cases h
    · rw [if_neg h2] at h
      cases h
      constructor
      · intro i st hst
        rw [buildStagesGo_stage_index bd e.stages 1 i st hst]
        omega
      · intro st hst
        exact buildStagesGo_variations bd e.stages 1 st hst

/-- Catalog well-formedness is preserved by a replacing insert of a
well-formed descriptor. -/
theorem catalogWF_insert (c : Catalog) (k : String) (d : TreeTypeDesc)
    (hc : catalogWF c) (hd : stagesWellFormed d) : catalogWF (catInsert c k d) := by
  intro k' d' h
  rw [catFind_insert] at h
  by_cases hk : k = k'
  · rw [if_pos hk] at h
    cases h
    exact hd
  · rw [if_neg hk] at h
    exact hc k' d' h

/-- Catalog well-formedness is preserved by processing a whole source. -/
theorem catalogWF_foldl (bd : Option String) :
    ∀ (es : List TreeTypeElem) (cat : Catalog) (cnt : Nat), catalogWF cat →
      catalogWF (es.foldl (processEntry bd) (cat, cnt)).1 := by
  intro es
  induction es with
  | nil => intro cat cnt h; exact h
  | cons e rest ih =>
    intro cat cnt h
    rw [List.foldl_cons]
    cases hre : registeredEntry bd e with
    | some kd =>
      have hpe : processEntry bd (cat, cnt) e = (catInsert cat kd.1 kd.2, cnt + 1) := by
        simp [processEntry, hre]
      rw [hpe]
      exact ih _ _ (catalogWF_insert _ _ _ h (registeredEntry_wf bd e kd hre))
    | none =>
      have hpe : processEntry bd (cat, cnt) e = (cat, cnt) := by
        simp [processEntry, hre]
      rw [hpe]
      exact ih _ _ h

/-- Catalog well-formedness is preserved by any load. -/
theorem catalogWF_load (c : Catalog) (src : TreeXmlSource) (bd : Option String)
    (h : catalogWF c) : catalogWF (load_from_xml c src bd).1 := by
  cases src with
  | missing => exact h
  | malformed => exact h
  | parsed es => exact catalogWF_foldl bd es c 0 h

/-- C9: every descriptor held by the catalog after any sequence of load
operations has growth stages numbered 1-based and contiguously (the k-th
stored stage has stage index k) and each stage holds at least one
variation, even when source stage entries lacking variations are skipped. -/
theorem c9_stage_invariant (srcs : List (TreeXmlSource × Option String)) (k : String) (d : TreeTypeDesc)
    (h : catFind (loadAll srcs) k = some d) : stagesWellFormed d := by
  suffices hwf : catalogWF (loadAll srcs) from hwf k d h
  unfold loadAll
  have : ∀ (ss : List (TreeXmlSource × Option String)) (c : Catalog), catalogWF c →
      catalogWF (ss.foldl (fun c sb => (load_from_xml c sb.1 sb.2).1) c) := by
    intro ss
    induction ss with
    | nil => intro c hc; exact hc
    | cons sb rest ih =>
      intro c hc
      rw [List.foldl_cons]
      exact ih _ (catalogWF_load c sb.1 sb.2 hc)
  exact this srcs [] (fun k d h => by cases h)

theorem c9_stage_invariant_witness : stagesWellFormed exDescBirch := by
  have h : catFind (loadAll [(exSrcBirch, none)]) (upperStr ("birch")) = some exDescBirch := by
    decide
  exact c9_stage_invariant [(exSrcBirch, none)] (upperStr ("birch")) exDescBirch h

/-- atan2 is invariant under scaling both arguments by a positive factor. -/
theorem atan2_pos_mul (k y x : ℝ) (hk : 0 < k) : atan2 (k * y) (k * x) = atan2 y x := by
  have hdiv : k * y / (k * x) = y / x := mul_div_mul_left y x (ne_of_gt hk)
  unfold atan2
  rcases lt_trichotomy x 0 with hx | hx | hx
  · have h2 : k * x < 0 := mul_neg_of_pos_of_neg hk hx
    rw [if_neg (show ¬ 0 < k * x by linarith), if_pos h2,
      if_neg (show ¬ 0 < x by linarith), if_pos hx]
    by_cases hy : 0 ≤ y
    · rw [if_pos (show 0 ≤ k * y from mul_nonneg hk.le hy), if_pos hy, hdiv]
    · push_neg at hy
      rw [if_neg (show ¬ 0 ≤ k * y by nlinarith), if_neg (show ¬ 0 ≤ y by linarith), hdiv]
  · rw [hx, mul_zero]
    rw [if_neg (lt_irrefl 0), if_neg (lt_irrefl 0), if_neg (lt_irrefl 0), if_neg (lt_irrefl 0)]
    rcases lt_trichotomy y 0 with hy | hy | hy
    · rw [if_neg (show ¬ 0 < k * y by nlinarith), if_pos (show k * y < 0 by nlinarith),
        if_neg (show ¬ 0 < y by linarith), if_pos hy]
    · rw [hy, mul_zero]
    · rw [if_pos (show 0 < k * y from mul_pos hk hy), if_pos hy]
  · have h1 : 0 < k * x := mul_pos hk hx
    rw [if_pos h1, if_pos hx, hdiv]

/-- atan2 recovers an angle in `(-pi, pi]` from its sine and cosine. -/
theorem atan2_sin_cos (t : ℝ) (h1 : -Real.pi < t) (h2 : t ≤ Real.pi) :
    atan2 (Real.sin t) (Real.cos t) = t := by
  have hpi := Real.pi_pos
  rcases lt_trichotomy (Real.cos t) 0 with hc | hc | hc
  · rcases le_or_lt 0 (Real.sin t) with hs | hs
    · -- cos < 0, sin >= 0: t in (pi/2, pi]
      have ht : Real.pi / 2 < t := by
        by_contra hh
        push_neg at hh
        rcases le_or_lt (-(Real.pi / 2)) t with h3 | h3
        · have := Real.cos_nonneg_of_mem_Icc (Set.mem_Icc.mpr ⟨h3, hh⟩)
          linarith
        · have := Real.sin_neg_of_neg_of_neg_pi_lt (by linarith) h1
          linarith
      unfold atan2
      rw [if_neg (by linarith), if_pos hc, if_pos hs]
      rw [← Real.tan_eq_sin_div_cos, ← Real.tan_periodic.sub_eq t,
        Real.arctan_tan (by linarith) (by linarith)]
      ring
    · -- cos < 0, sin < 0: t in (-pi, -pi/2)
      have ht : t < -(Real.pi / 2) := by
        by_contra hh
        push_neg at hh
        rcases le_or_lt t (Real.pi / 2) with h3 | h3
        · have := Real.cos_nonneg_of_mem_Icc (Set.mem_Icc.mpr ⟨hh, h3⟩)
          linarith
        · have := Real.sin_nonneg_of_nonneg_of_le_pi (by linarith) h2
          linarith
      unfold atan2
      rw [if_neg (by linarith), if_pos hc, if_neg (by linarith)]
      rw [← Real.tan_eq_sin_div_cos, ← Real.tan_periodic t,
        Real.arctan_tan (by linarith) (by linarith)]
      ring
  · -- cos = 0: t = pi/2 or t = -pi/2
    rcases (Real.cos_eq_zero_iff).mp hc with ⟨n, hn⟩
    have hb1 : (-2 : ℝ) < 2 * (n : ℝ) + 1 := by
      by_contra hh
      push_neg at hh
      nlinarith
    have hb2 : (2 : ℝ) * (n : ℝ) + 1 ≤ 2 := by
      by_contra hh
      push_neg at hh
      nlinarith
    have hn1 : (-2 : ℤ) < 2 * n + 1 := by exact_mod_cast hb1
    have hn2 : (2 : ℤ) * n + 1 ≤ 2 := by exact_mod_cast hb2
    have hn0 : n = 0 ∨ n = -1 := by omega
    unfold atan2
    rcases hn0 with h | h
    · subst h
      have ht : t = Real.pi / 2 := by rw [hn]; ring
      rw [ht, Real.sin_pi_div_two, Real.cos_pi_div_two]
      rw [if_neg (lt_irrefl 0), if_neg (lt_irrefl 0), if_pos one_pos]
    · subst h
      have ht : t = -(Real.pi / 2) := by rw [hn]; push_cast; ring
      rw [ht, Real.sin_neg, Real.sin_pi_div_two, Real.cos_neg, Real.cos_pi_div_two]
      rw [if_neg (lt_irrefl 0), if_neg (lt_irrefl 0), if_neg (by norm_num), if_pos (by norm_num)]
  · -- cos > 0: t in (-pi/2, pi/2)
    have hl : -(Real.pi / 2) < t := by
      by_contra hh
      push_neg at hh
      have hcn : Real.cos (-t) ≤ 0 :=
        Real.cos_nonpos_of_pi_div_two_le_of_le (by linarith) (by linarith)
      rw [Real.cos_neg] at hcn
      linarith
    have hr : t < Real.pi / 2 := by
      by_contra hh
      push_neg at hh
      have hcn : Real.cos t ≤ 0 :=
        Real.cos_nonpos_of_pi_div_two_le_of_le hh (by linarith)
      linarith
    unfold atan2
    rw [if_pos hc, ← Real.tan_eq_sin_div_cos, Real.arctan_tan hl hr]

/-- C3 (amended): for scale `(1, 1, 1)`, any translation, `|ry| < 89` degrees
and `rx`, `rz` in `(-180, 180]` degrees, decomposing the built transform
recovers the translation and the rotation exactly (in the real-number
model of the float computation). -/
theorem c3_roundtrip_amended (tx ty tz rx ry rz : ℝ)
    (hx1 : -180 < rx) (hx2 : rx ≤ 180) (hy : |ry| < 89)
    (hz1 : -180 < rz) (hz2 : rz ≤ 180) :
    extract_world_transform (transform_matrix tx ty tz rx ry rz 1 1 1) =
      ((tx, ty, tz), (rx, ry, rz)) := by
  have hpi := Real.pi_pos
  have hpi6 := Real.pi_gt_d6
  have hpi2 := Real.pi_lt_d2
  obtain ⟨hy1, hy2⟩ := abs_lt.mp hy
  -- radian values and bounds
  have hRy1 : -(Real.pi / 2) < radiansR ry := by unfold radiansR; nlinarith
  have hRy2 : radiansR ry < Real.pi / 2 := by unfold radiansR; nlinarith
  have hRx1 : -Real.pi < radiansR rx := by unfold radiansR; nlinarith
  have hRx2 : radiansR rx ≤ Real.pi := by unfold radiansR; nlinarith
  have hRz1 : -Real.pi < radiansR rz := by unfold radiansR; nlinarith
  have hRz2 : radiansR rz ≤ Real.pi := by unfold radiansR; nlinarith
  -- cos ry is comfortably positive
  have hcosry : (0.001 : ℝ) < Real.cos (radiansR ry) := by
    have habs : |radiansR ry| ≤ 89 * (Real.pi / 180) := by
      rw [abs_le]
      constructor <;> (unfold radiansR; nlinarith)
    have hmono : Real.cos (89 * (Real.pi / 180)) ≤ Real.cos |radiansR ry| := by
      apply Real.cos_le_cos_of_nonneg_of_le_pi (abs_nonneg _) _ habs
      nlinarith
    rw [Real.cos_abs] at hmono
    have heq : (89 : ℝ) * (Real.pi / 180) = Real.pi / 2 - Real.pi / 180 := by ring
    rw [heq, Real.cos_pi_div_two_sub] at hmono
    have hs := Real.sin_gt_sub_cube (show (0:ℝ) < Real.pi / 180 by linarith)
      (show Real.pi / 180 ≤ 1 by linarith)
    have hcube : (Real.pi / 180) ^ 3 < (0.0175 : ℝ) ^ 3 := by
      have hlt : Real.pi / 180 < 0.0175 := by linarith
      have h0 : (0 : ℝ) < Real.pi / 180 := by linarith
      exact pow_lt_pow_left₀ hlt h0.le (by norm_num)
    nlinarith
  have hcospos : (0 : ℝ) < Real.cos (radiansR ry) := by linarith
  -- matrix entries
  have e03 : transform_matrix tx ty tz rx ry rz 1 1 1 0 3 = tx := by
    simp [transform_matrix, rotation_matrix]
  have e13 : transform_matrix tx ty tz rx ry rz 1 1 1 1 3 = ty := by
    simp [transform_matrix, rotation_matrix]
  have e23 : transform_matrix tx ty tz rx ry rz 1 1 1 2 3 = tz := by
    simp [transform_matrix, rotation_matrix]
  have e02 : transform_matrix tx ty tz rx ry rz 1 1 1 0 2 = Real.sin (radiansR ry) := by
    simp [transform_matrix, rotation_matrix]
  have e12 : transform_matrix tx ty tz rx ry rz 1 1 1 1 2 =
      -(Real.sin (radiansR rx) * Real.cos (radiansR ry)) := by
    simp [transform_matrix, rotation_matrix]
  have e22 : transform_matrix tx ty tz rx ry rz 1 1 1 2 2 =
      Real.cos (radiansR rx) * Real.cos (radiansR ry) := by
    simp [transform_matrix, rotation_matrix]
  have e01 : transform_matrix tx ty tz rx ry rz 1 1 1 0 1 =
      -(Real.cos (radiansR ry) * Real.sin (radiansR rz)) := by
    simp [transform_matrix, rotation_matrix]
  have e00 : transform_matrix tx ty tz rx ry rz 1 1 1 0 0 =
      Real.cos (radiansR ry) * Real.cos (radiansR rz) := by
    simp [transform_matrix, rotation_matrix]
  simp only [extract_world_transform, e03, e13, e23, e02, e12, e22, e01, e00]
  -- clamped arcsin recovers ry
  have hclamp : max (-1) (min 1 (Real.sin (radiansR ry))) = Real.sin (radiansR ry) := by
    rw [min_eq_right (Real.sin_le_one _), max_eq_right (Real.neg_one_le_sin _)]
  rw [hclamp, Real.arcsin_sin (by linarith) (by linarith)]
  rw [if_pos (show |Real.cos (radiansR ry)| > 0.001 by rw [abs_of_pos hcospos]; exact hcosry)]
  -- the two atan2 recoveries
  have hax : atan2 (- -(Real.sin (radiansR rx) * Real.cos (radiansR ry)))
      (Real.cos (radiansR rx) * Real.cos (radiansR ry)) = radiansR rx := by
    rw [neg_neg, mul_comm (Real.sin (radiansR rx)) (Real.cos (radiansR ry)),
      mul_comm (Real.cos (radiansR rx)) (Real.cos (radiansR ry)),
      atan2_pos_mul _ _ _ hcospos, atan2_sin_cos _ hRx1 hRx2]
  have haz : atan2 (- -(Real.cos (radiansR ry) * Real.sin (radiansR rz)))
      (Real.cos (radiansR ry) * Real.cos (radiansR rz)) = radiansR rz := by
    rw [neg_neg, atan2_pos_mul _ _ _ hcospos, atan2_sin_cos _ hRz1 hRz2]
  rw [hax, haz]
  have hdr : ∀ v : ℝ, degreesR (radiansR v) = v := by
    intro v
    unfold degreesR radiansR
    field_simp
  rw [hdr, hdr, hdr]

theorem c3_roundtrip_amended_witness :
    extract_world_transform (transform_matrix 1 2 3 30 45 60 1 1 1) =
      ((1, 2, 3), (30, 45, 60)) :=
  c3_roundtrip_amended 1 2 3 30 45 60 (by norm_num) (by norm_num)
    (abs_lt.mpr ⟨by norm_num, by norm_num⟩) (by norm_num) (by norm_num)

/-- C3 counterexample: for rotation `(360, 0, 360)` (within `|ry| < 89`) the
decomposition returns `(0, 0, 0)`, which is 360 degrees away from the
input rotation, so the claim as stated fails for angles outside
`(-180, 180]`. -/
theorem c3_roundtrip_counterexample :
    extract_world_transform (transform_matrix 0 0 0 360 0 360 1 1 1) =
      ((0, 0, 0), (0, 0, 0)) ∧
    ¬ (((0 : ℝ), (0 : ℝ), (0 : ℝ)) = ((360 : ℝ), (0 : ℝ), (360 : ℝ))) := by
  have hpi := Real.pi_pos
  have h360 : radiansR 360 = 2 * Real.pi := by unfold radiansR; ring
  have h0 : radiansR 0 = 0 := by unfold radiansR; ring
  have e03 : transform_matrix 0 0 0 360 0 360 1 1 1 0 3 = (0 : ℝ) := by
    simp [transform_matrix, rotation_matrix]
  have e13 : transform_matrix 0 0 0 360 0 360 1 1 1 1 3 = (0 : ℝ) := by
    simp [transform_matrix, rotation_matrix]
  have e23 : transform_matrix 0 0 0 360 0 360 1 1 1 2 3 = (0 : ℝ) := by
    simp [transform_matrix, rotation_matrix]
  have e02 : transform_matrix 0 0 0 360 0 360 1 1 1 0 2 = (0 : ℝ) := by
    simp [transform_matrix, rotation_matrix, h0]
  have e12 : transform_matrix 0 0 0 360 0 360 1 1 1 1 2 = (0 : ℝ) := by
    simp [transform_matrix, rotation_matrix, h0, h360, Real.sin_two_pi]
  have e22 : transform_matrix 0 0 0 360 0 360 1 1 1 2 2 = (1 : ℝ) := by
    simp [transform_matrix, rotation_matrix, h0, h360, Real.cos_two_pi]
  have e01 : transform_matrix 0 0 0 360 0 360 1 1 1 0 1 = (0 : ℝ) := by
    simp [transform_matrix, rotation_matrix, h0, h360, Real.sin_two_pi]
  have e00 : transform_matrix 0 0 0 360 0 360 1 1 1 0 0 = (1 : ℝ) := by
    simp [transform_matrix, rotation_matrix, h0, h360, Real.cos_two_pi]
  constructor
  · simp only [extract_world_transform, e03, e13, e23, e02, e12, e22, e01, e00]
    have hclamp : max (-1) (min 1 (0 : ℝ)) = (0 : ℝ) := by norm_num
    rw [hclamp, Real.arcsin_zero]
    rw [if_pos (show |Real.cos (0 : ℝ)| > 0.001 by rw [Real.cos_zero]; norm_num)]
    have ha : atan2 (-(0 : ℝ)) 1 = 0 := by
      unfold atan2
      rw [if_pos one_pos]
      norm_num [Real.arctan_zero]
    rw [ha]
    unfold degreesR
    norm_num
  · intro h
    have := congrArg Prod.fst h
    norm_num at this

/-- Membership of a path among pairs distributes over append. -/
theorem memPairs_append {α : Type} (l1 l2 : List (List Nat × α)) (q : List Nat) :
    (∃ inst, (q, inst) ∈ l1 ++ l2) ↔
      (∃ inst, (q, inst) ∈ l1) ∨ (∃ inst, (q, inst) ∈ l2) := by
  simp [List.mem_append, exists_or]

/-- What the emission step contributes, characterized by path, emission
condition and collecting condition. -/
theorem ownInstances_mem (pn : Option String) (fm : FileMap) (path : List Nat)
    (tag name : String) (refId : Option String) (world : Mat4)
    (s0 s1 s2 : PyDec) (inTP : Bool) (q : List Nat) :
    (∃ inst, (q, inst) ∈ ownInstances pn fm path tag name refId world s0 s1 s2 inTP) ↔
      (q = path ∧ emitsParts fm tag name refId = true ∧
        (pnActive pn = false ∨ inTP = true)) := by
  have hsing : ∀ inst0 : TreeInst,
      ((∃ inst, (q, inst) ∈ [(path, inst0)]) ↔ q = path) := by
    intro inst0
    constructor
    · rintro ⟨inst, hmem⟩
      rw [List.mem_singleton] at hmem
      exact congrArg Prod.fst hmem
    · rintro rfl
      exact ⟨inst0, List.mem_singleton.mpr rfl⟩
  unfold ownInstances
  split
  · next h1 =>
    split
    · next ref_id =>
      split
      · next h2 =>
        split
        · next tsv h3 =>
          split
          · next h4 =>
            rw [hsing]
            simp [emitsParts, refResolvableParts, h1, h2, h3, h4]
          · next h4 =>
            simp [h4]
        · next h3 =>
          simp [emitsParts, refResolvableParts, h1, h3]
      · next h2 =>
        push_neg at h2
        simp [emitsParts, refResolvableParts, h1, h2]
    · next =>
      simp [emitsParts, refResolvableParts, h1]
  · next h1 =>
    split
    · next h5 =>
      split
      · next td h6 =>
        split
        · next h4 =>
          rw [hsing]
          simp [emitsParts, refResolvableParts, h1, h5, h6, h4]
        · next h4 =>
          simp [h4]
      · next h6 =>
        simp [emitsParts, refResolvableParts, h1, h5, h6]
    · next h5 =>
      push_neg at h5
      simp [emitsParts, refResolvableParts, h1, h5.1, h5.2]

/-- The collecting condition at the node itself. -/
theorem stickyOkB_nil (pn : Option String) (b : Bool) (n : I3DNode) :
    stickyOkB pn b n [] = (!(pnActive pn) || (pnMatches pn n.nameOf || b)) := by
  unfold stickyOkB
  simp only [List.length_nil, Nat.zero_add, List.range_succ, List.range_zero, List.nil_append,
    List.any_cons, List.any_nil, List.take_nil, visitPath, nameMatchAt, Bool.or_false]
  cases pnActive pn <;> cases b <;> cases pnMatches pn n.nameOf <;> rfl

/-- The collecting condition one step down an allowed child. -/
theorem stickyOkB_cons (pn : Option String) (b : Bool) (n : I3DNode) (j : Nat) (s : List Nat)
    (c : I3DNode) (hc : forestGet? n.childrenOf j = some c) (ha : allowedTag c.tagOf = true) :
    stickyOkB pn b n (j :: s) = stickyOkB pn (pnMatches pn n.nameOf || b) c s := by
  unfold stickyOkB
  rw [List.length_cons, List.range_succ_eq_map, List.any_cons, List.any_map]
  have hcomp : ((fun k => nameMatchAt pn (visitPath n (List.take k (j :: s)))) ∘ Nat.succ)
      = fun k => nameMatchAt pn (visitPath c (List.take k s)) := by
    funext k
    show nameMatchAt pn (visitPath n (List.take (k + 1) (j :: s))) = _
    rw [List.take_succ_cons]
    have hv : visitPath n (j :: List.take k s) = visitPath c (List.take k s) := by
      show (match forestGet? n.childrenOf j with
        | some c => if allowedTag c.tagOf = true then visitPath c (List.take k s) else none
        | none => none) = visitPath c (List.take k s)
      rw [hc]
      show (if allowedTag c.tagOf = true then visitPath c (List.take k s) else none) = _
      rw [if_pos ha]
    rw [hv]
  rw [hcomp]
  have h0 : nameMatchAt pn (visitPath n (List.take 0 (j :: s))) = pnMatches pn n.nameOf := rfl
  rw [h0]
  cases pnActive pn <;> cases b <;> cases pnMatches pn n.nameOf <;> simp

/-- Splitting the collected-path specification of a node into its own
emission and its children's contributions. -/
theorem scanSpec_mk (pn : Option String) (fm : FileMap) (tag : String)
    (nameA refId trA roA scA : Option String) (children : I3DForest)
    (p : List Nat) (b : Bool) (q : List Nat) :
    scanSpec pn fm (.mk tag nameA refId trA roA scA children) p b q ↔
      ((q = p ∧ emitsParts fm tag (nameA.getD ("")) refId = true ∧
        (pnActive pn = false ∨ (pnMatches pn (nameA.getD ("")) || b) = true)) ∨
       childScanSpec pn fm children p 0 (pnMatches pn (nameA.getD ("")) || b) q) := by
  unfold scanSpec childScanSpec
  constructor
  · rintro ⟨s, m, hq, hv, he, hst⟩
    cases s with
    | nil =>
      left
      have hm : I3DNode.mk tag nameA refId trA roA scA children = m := Option.some.inj hv
      subst hm
      rw [List.append_nil] at hq
      refine ⟨hq, he, ?_⟩
      rw [stickyOkB_nil] at hst
      cases hpa : pnActive pn with
      | false => exact Or.inl rfl
      | true =>
        right
        rw [hpa] at hst
        simpa using hst
    | cons j s' =>
      right
      have hv' : (match forestGet? children j with
          | some c => if allowedTag c.tagOf = true then visitPath c s' else none
          | none => none) = some m := hv
      cases hg : forestGet? children j with
      | none => rw [hg] at hv'; cases hv'
      | some c =>
        rw [hg] at hv'
        have hv2 : (if allowedTag c.tagOf = true then visitPath c s' else none) = some m := hv'
        by_cases ha : allowedTag c.tagOf = true
        · rw [if_pos ha] at hv2
          refine ⟨j, c, hg, ha, s', m, ?_, hv2, he, ?_⟩
          · rw [hq]
            simp
          · rw [stickyOkB_cons pn b (I3DNode.mk tag nameA refId trA roA scA children)
              j s' c hg ha] at hst
            exact hst
        · rw [if_neg ha] at hv2
          cases hv2
  · rintro (⟨hq, he, hcond⟩ | ⟨j, c, hg, ha, s', m, hq, hv, he, hst⟩)
    · refine ⟨[], _, by rw [List.append_nil]; exact hq, rfl, he, ?_⟩
      rw [stickyOkB_nil]
      show (!pnActive pn || (pnMatches pn (nameA.getD ("")) || b)) = true
      rcases hcond with h | h
      · rw [h]
        rfl
      · rw [h]
        simp
    · refine ⟨j :: s', m, ?_, ?_, he, ?_⟩
      · rw [hq]
        simp
      · show (match forestGet? children j with
          | some c => if allowedTag c.tagOf = true then visitPath c s' else none
          | none => none) = some m
        rw [hg]
        show (if allowedTag c.tagOf = true then visitPath c s' else none) = some m
        rw [if_pos ha]
        exact hv
      · rw [stickyOkB_cons pn b (I3DNode.mk tag nameA refId trA roA scA children) j s' c hg ha]
        exact hst

/-- Splitting the child loop specification at an allowed head child. -/
theorem childScanSpec_cons (pn : Option String) (fm : FileMap) (c : I3DNode) (rest : I3DForest)
    (p : List Nat) (i : Nat) (b : Bool) (q : List Nat) (ha : allowedTag c.tagOf = true) :
    childScanSpec pn fm (.cons c rest) p i b q ↔
      scanSpec pn fm c (p ++ [i]) b q ∨ childScanSpec pn fm rest p (i + 1) b q := by
  unfold childScanSpec
  constructor
  · rintro ⟨j, c', hg, ha', hs⟩
    cases j with
    | zero =>
      left
      have hc : c = c' := Option.some.inj hg
      subst hc
      simpa using hs
    | succ j' =>
      right
      refine ⟨j', c', hg, ha', ?_⟩
      rw [show (i + 1) + j' = i + (j' + 1) from by omega]
      exact hs
  · rintro (hs | ⟨j, c', hg, ha', hs⟩)
    · exact ⟨0, c, rfl, ha, by simpa using hs⟩
    · refine ⟨j + 1, c', hg, ha', ?_⟩
      rw [show i + (j + 1) = (i + 1) + j from by omega]
      exact hs

/-- Splitting the child loop specification at a skipped head child. -/
theorem childScanSpec_cons_skip (pn : Option String) (fm : FileMap) (c : I3DNode)
    (rest : I3DForest) (p : List Nat) (i : Nat) (b : Bool) (q : List Nat)
    (ha : ¬ allowedTag c.tagOf = true) :
    childScanSpec pn fm (.cons c rest) p i b q ↔ childScanSpec pn fm rest p (i + 1) b q := by
  unfold childScanSpec
  constructor
  · rintro ⟨j, c', hg, ha', hs⟩
    cases j with
    | zero =>
      have hc : c = c' := Option.some.inj hg
      subst hc
      exact absurd ha' ha
    | succ j' =>
      refine ⟨j', c', hg, ha', ?_⟩
      rw [show (i + 1) + j' = i + (j' + 1) from by omega]
      exact hs
  · rintro ⟨j, c', hg, ha', hs⟩
    refine ⟨j + 1, c', hg, ha', ?_⟩
    rw [show i + (j + 1) = (i + 1) + j from by omega]
    exact hs

mutual
/-- Characterization of the paths collected by `scanNode` on a successful
traversal: exactly the paths of emitting nodes below `n` for which the
collecting condition holds. -/
theorem scanNode_mem (pn : Option String) (fm : FileMap) :
    ∀ (p : List Nat) (n : I3DNode) (pm : Mat4) (b : Bool) (l : List (List Nat × TreeInst)),
      scanNode pn fm p n pm b = some l →
      ∀ q, ((∃ inst, (q, inst) ∈ l) ↔ scanSpec pn fm n p b q)
  | p, .mk tag nameA refId trA roA scA children, pm, b, l, h, q => by
    simp only [scanNode] at h
    split at h
    · rename_i t3 r3 s3 heqt heqr heqs
      split at h
      · rename_i rest heqc
        cases h
        rw [memPairs_append, scanSpec_mk]
        exact or_congr
          (ownInstances_mem pn fm p tag (nameA.getD ("")) refId _ s3.1 s3.2.1 s3.2.2 _ q)
          (scanChildren_mem pn fm p 0 children _ _ rest heqc q)
      · exact absurd h (by simp)
    · exact absurd h (by simp)

/-- Characterization of the paths collected by the child loop. -/
theorem scanChildren_mem (pn : Option String) (fm : FileMap) :
    ∀ (p : List Nat) (i : Nat) (cs : I3DForest) (wm : Mat4) (b : Bool)
      (l : List (List Nat × TreeInst)),
      scanChildren pn fm p i cs wm b = some l →
      ∀ q, ((∃ inst, (q, inst) ∈ l) ↔ childScanSpec pn fm cs p i b q)
  | p, i, .nil, wm, b, l, h, q => by
    simp only [scanChildren] at h
    cases h
    simp [childScanSpec, forestGet?]
  | p, i, .cons c rest, wm, b, l, h, q => by
    simp only [scanChildren] at h
    by_cases ha : allowedTag c.tagOf = true
    · rw [if_pos ha] at h
      split at h
      · rename_i l1 heq1
        split at h
        · rename_i l2 heq2
          cases h
          rw [memPairs_append, childScanSpec_cons pn fm c rest p i b q ha]
          exact or_congr
            (scanNode_mem pn fm (p ++ [i]) c wm b l1 heq1 q)
            (scanChildren_mem pn fm p (i + 1) rest wm b l2 heq2 q)
        · exact absurd h (by simp)
      · exact absurd h (by simp)
    · rw [if_neg ha] at h
      have h' : (match scanChildren pn fm p (i + 1) rest wm b with
          | some l2 => some (([] : List (List Nat × TreeInst)) ++ l2)
          | none => none) = some l := h
      clear h
      split at h'
      · rename_i l2 heq2
        cases h'
        rw [List.nil_append, childScanSpec_cons_skip pn fm c rest p i b q ha]
        exact scanChildren_mem pn fm p (i + 1) rest wm b l2 heq2 q
      · exact absurd h' (by simp)
end

/-- Splitting the scene loop specification at the head child (no tag
guard at the top level). -/
theorem sceneScanSpec_cons (pn : Option String) (fm : FileMap) (c : I3DNode) (rest : I3DForest)
    (i : Nat) (b : Bool) (q : List Nat) :
    sceneScanSpec pn fm (.cons c rest) i b q ↔
      scanSpec pn fm c [i] b q ∨ sceneScanSpec pn fm rest (i + 1) b q := by
  unfold sceneScanSpec
  constructor
  · rintro ⟨j, c', hg, hs⟩
    cases j with
    | zero =>
      left
      have hc : c = c' := Option.some.inj hg
      subst hc
      simpa using hs
    | succ j' =>
      right
      refine ⟨j', c', hg, ?_⟩
      rw [show (i + 1) + j' = i + (j' + 1) from by omega]
      exact hs
  · rintro (hs | ⟨j, c', hg, hs⟩)
    · exact ⟨0, c, rfl, by simpa using hs⟩
    · refine ⟨j + 1, c', hg, ?_⟩
      rw [show i + (j + 1) = (i + 1) + j from by omega]
      exact hs

/-- Characterization of the paths collected by the scene loop. -/
theorem scanScene_mem (pn : Option String) (fm : FileMap) :
    ∀ (i : Nat) (cs : I3DForest) (b : Bool) (l : List (List Nat × TreeInst)),
      scanScene pn fm i cs b = some l →
      ∀ q, ((∃ inst, (q, inst) ∈ l) ↔ sceneScanSpec pn fm cs i b q)
  | i, .nil, b, l, h, q => by
    simp only [scanScene] at h
    cases h
    simp [sceneScanSpec, forestGet?]
  | i, .cons c rest, b, l, h, q => by
    simp only [scanScene] at h
    split at h
    · rename_i l1 heq1
      split at h
      · rename_i l2 heq2
        cases h
        rw [memPairs_append, sceneScanSpec_cons]
        exact or_congr
          (scanNode_mem pn fm [i] c identity_matrix b l1 heq1 q)
          (scanScene_mem pn fm (i + 1) rest b l2 heq2 q)
      · exact absurd h (by simp)
    · exact absurd h (by simp)

/-- Membership in a successful `find_trees` run, characterized by the
scene scan specification. -/
theorem memAt_find_treesP (pn : Option String) (loader : Option Catalog) (files : List FileElem)
    (scene : I3DForest) (hrun : (find_treesP pn loader files scene).isSome = true)
    (q : List Nat) :
    memAt (find_treesP pn loader files scene) q ↔
      sceneScanSpec pn (build_file_id_map loader files) scene 0 pn.isNone q := by
  obtain ⟨l, hl⟩ := Option.isSome_iff_exists.mp hrun
  have hchar := scanScene_mem pn (build_file_id_map loader files) 0 scene pn.isNone l hl q
  rw [← hchar]
  unfold memAt
  rw [hl]
  constructor
  · rintro ⟨l', inst, hll, hmem⟩
    cases Option.some.inj hll
    exact ⟨inst, hmem⟩
  · rintro ⟨inst, hmem⟩
    exact ⟨l, inst, rfl, hmem⟩

/-- The scene scan specification at a fixed visited node. -/
theorem sceneScanSpec_at (pn : Option String) (fm : FileMap) (scene : I3DForest) (b : Bool)
    (j : Nat) (s : List Nat) (c m : I3DNode)
    (hg : forestGet? scene j = some c) (hv : visitPath c s = some m) :
    sceneScanSpec pn fm scene 0 b (j :: s) ↔
      (emitsHere fm m = true ∧ stickyOkB pn b c s = true) := by
  unfold sceneScanSpec scanSpec
  constructor
  · rintro ⟨j', c', hg', s', m', hq, hv', he, hst⟩
    have hq' : j :: s = j' :: s' := by simpa using hq
    injection hq' with h1 h2
    subst h1
    subst h2
    rw [hg] at hg'
    cases Option.some.inj hg'
    rw [hv] at hv'
    cases Option.some.inj hv'
    exact ⟨he, hst⟩
  · rintro ⟨he, hst⟩
    exact ⟨j, c, hg, s, m, by simp, hv, he, hst⟩

/-- With a non-empty filter name the filter check is the case-insensitive
name comparison. -/
theorem nameMatchAt_eq_lower (f : String) (hf : ¬ f = "") (o : Option I3DNode) :
    nameMatchAt (some f) o = nameMatchLower f o := by
  cases o with
  | none => rfl
  | some m =>
    show pnMatches (some f) m.nameOf = _
    unfold pnMatches nameMatchLower
    simp [hf]

/-- The collecting condition below a scene child equals the ancestor-match
predicate on the full path. -/
theorem stickyOkB_iff_ancestor (f : String) (hf : ¬ f = "") (scene : I3DForest) (j : Nat)
    (s : List Nat) (c : I3DNode) (hg : forestGet? scene j = some c) :
    stickyOkB (some f) false c s = ancestorMatchesB f scene (j :: s) := by
  unfold stickyOkB ancestorMatchesB
  have hact : pnActive (some f) = true := by
    unfold pnActive
    simp [hf]
  rw [hact]
  simp only [Bool.not_true, Bool.false_or, Bool.or_false]
  conv_rhs => rw [List.length_cons, List.range_succ_eq_map, List.any_cons, List.any_map]
  have h0 : ((decide (0 ≠ 0) : Bool) && nameMatchLower f (sceneVisitPath scene (List.take 0 (j :: s)))) = false := by
    simp
  rw [h0]
  rw [Bool.false_or]
  have hcomp : ((fun k => (decide (k ≠ 0) : Bool) &&
        nameMatchLower f (sceneVisitPath scene (List.take k (j :: s)))) ∘ Nat.succ)
      = fun k => nameMatchAt (some f) (visitPath c (List.take k s)) := by
    funext k
    show ((decide (k + 1 ≠ 0) : Bool) &&
        nameMatchLower f (sceneVisitPath scene (List.take (k + 1) (j :: s)))) = _
    rw [List.take_succ_cons]
    have hsv : sceneVisitPath scene (j :: List.take k s) = visitPath c (List.take k s) := by
      show (match forestGet? scene j with
        | some c => visitPath c (List.take k s)
        | none => none) = visitPath c (List.take k s)
      rw [hg]
    rw [hsv, nameMatchAt_eq_lower f hf]
    simp
  rw [hcomp]

/-- C4: with an active (non-empty) subtree filter name, a successful
`find_trees` run collects a resolvable reference node if and only if some
node on its path from the scene root (itself included) has a name equal to
the filter name case-insensitively; in particular a resolvable reference
node outside every matching-named subtree is excluded. -/
theorem c4_subtree_filter (f : String) (hf : ¬ f = "") (loader : Option Catalog) (files : List FileElem)
    (scene : I3DForest) (q : List Nat) (m : I3DNode)
    (hrun : (find_treesP (some f) loader files scene).isSome = true)
    (hvisit : sceneVisitPath scene q = some m)
    (htag : m.tagOf = "ReferenceNode")
    (hres : refResolvable (build_file_id_map loader files) m = true) :
    memAt (find_treesP (some f) loader files scene) q ↔
      ancestorMatchesB f scene q = true := by
  cases q with
  | nil => cases hvisit
  | cons j s =>
    have hvisit' : (match forestGet? scene j with
        | some c => visitPath c s
        | none => none) = some m := hvisit
    cases hg : forestGet? scene j with
    | none => rw [hg] at hvisit'; cases hvisit'
    | some c =>
      rw [hg] at hvisit'
      rw [memAt_find_treesP (some f) loader files scene hrun (j :: s)]
      rw [sceneScanSpec_at (some f) (build_file_id_map loader files) scene _ j s c m hg hvisit']
      have hem : emitsHere (build_file_id_map loader files) m = true := by
        unfold emitsHere emitsParts
        unfold refResolvable at hres
        rw [htag, hres]
        rfl
      have hisn : (some f).isNone = false := rfl
      rw [hisn, stickyOkB_iff_ancestor f hf scene j s c hg]
      simp [hem]

theorem c4_subtree_filter_witness :
    memAt (find_treesP (some ("trees")) none exFiles exScene) [1, 0] ∧
    ¬ memAt (find_treesP (some ("trees")) none exFiles exScene) [0, 0] := by
  have hrun : (find_treesP (some ("trees")) none exFiles exScene).isSome = true := by decide
  constructor
  · exact (c4_subtree_filter ("trees") (by decide) none exFiles exScene [1, 0] exRef2 hrun rfl rfl
      (by decide)).mpr (by decide)
  · intro hmem
    have h := (c4_subtree_filter ("trees") (by decide) none exFiles exScene [0, 0] exRef1 hrun rfl rfl
      (by decide)).mp hmem
    have hfalse : ancestorMatchesB ("trees") exScene [0, 0] = false := by decide
    rw [hfalse] at h
    exact Bool.false_ne_true h

/-- Visiting a concatenated path composes. -/
theorem visitPath_append :
    ∀ (s1 : List Nat) (n m : I3DNode), visitPath n s1 = some m →
      ∀ s2, visitPath n (s1 ++ s2) = visitPath m s2
  | [], n, m, h, s2 => by
    cases Option.some.inj h
    rfl
  | j :: s1', n, m, h, s2 => by
    have h' : (match forestGet? n.childrenOf j with
        | some c => if allowedTag c.tagOf = true then visitPath c s1' else none
        | none => none) = some m := h
    show (match forestGet? n.childrenOf j with
        | some c => if allowedTag c.tagOf = true then visitPath c (s1' ++ s2) else none
        | none => none) = visitPath m s2
    cases hg : forestGet? n.childrenOf j with
    | none => rw [hg] at h'; cases h'
    | some c =>
      rw [hg] at h'
      have h2 : (if allowedTag c.tagOf = true then visitPath c s1' else none) = some m := h'
      show (if allowedTag c.tagOf = true then visitPath c (s1' ++ s2) else none) = visitPath m s2
      by_cases ha : allowedTag c.tagOf = true
      · rw [if_pos ha] at h2
        rw [if_pos ha]
        exact visitPath_append s1' c m h2 s2
      · rw [if_neg ha] at h2
        cases h2

/-- Visiting from the scene through a concatenated path composes. -/
theorem sceneVisitPath_append (scene : I3DForest) (q : List Nat) (m : I3DNode)
    (h : sceneVisitPath scene q = some m) (s : List Nat) :
    sceneVisitPath scene (q ++ s) = visitPath m s := by
  cases q with
  | nil => cases h
  | cons j q' =>
    have h' : (match forestGet? scene j with
        | some c => visitPath c q'
        | none => none) = some m := h
    show (match forestGet? scene j with
        | some c => visitPath c (q' ++ s)
        | none => none) = visitPath m s
    cases hg : forestGet? scene j with
    | none => rw [hg] at h'; cases h'
    | some c =>
      rw [hg] at h'
      show visitPath c (q' ++ s) = visitPath m s
      exact visitPath_append q' c m h' s

/-- With no filter the collecting condition always holds. -/
theorem stickyOkB_none (b : Bool) (n : I3DNode) (s : List Nat) :
    stickyOkB none b n s = true := rfl

/-- C10: a reference node whose reference identifier does not resolve in the
file registry never yields an instance, even when its own name matches a
fallback classifier pattern (the legacy name check applies only to
`TransformGroup`/`Shape` nodes), and the traversal still descends into the
unresolved node's children: with no filter, every emitting descendant is
still collected. -/
theorem c10_unresolved_reference (pn : Option String) (loader : Option Catalog) (files : List FileElem)
    (scene : I3DForest) (q : List Nat) (m : I3DNode)
    (hrun : (find_treesP pn loader files scene).isSome = true)
    (hvisit : sceneVisitPath scene q = some m)
    (htag : m.tagOf = "ReferenceNode")
    (hunres : refResolvable (build_file_id_map loader files) m = false) :
    (¬ memAt (find_treesP pn loader files scene) q) ∧
    (pn = none → ∀ (s : List Nat) (m' : I3DNode), visitPath m s = some m' →
      emitsHere (build_file_id_map loader files) m' = true →
      memAt (find_treesP pn loader files scene) (q ++ s)) := by
  constructor
  · intro hmem
    cases q with
    | nil => cases hvisit
    | cons j s =>
      have hvisit' : (match forestGet? scene j with
          | some c => visitPath c s
          | none => none) = some m := hvisit
      cases hg : forestGet? scene j with
      | none => rw [hg] at hvisit'; cases hvisit'
      | some c =>
        rw [hg] at hvisit'
        rw [memAt_find_treesP pn loader files scene hrun (j :: s)] at hmem
        rw [sceneScanSpec_at pn (build_file_id_map loader files) scene _ j s c m hg hvisit']
          at hmem
        obtain ⟨hem, -⟩ := hmem
        unfold emitsHere emitsParts at hem
        unfold refResolvable at hunres
        rw [htag, hunres] at hem
        exact Bool.false_ne_true hem
  · rintro rfl s m' hv' hem'
    have hq : sceneVisitPath scene (q ++ s) = some m' := by
      rw [sceneVisitPath_append scene q m hvisit s]
      exact hv'
    cases q with
    | nil => cases hvisit
    | cons j q0 =>
      rw [List.cons_append] at hq
      have hq' : (match forestGet? scene j with
          | some c => visitPath c (q0 ++ s)
          | none => none) = some m' := hq
      cases hg : forestGet? scene j with
      | none => rw [hg] at hq'; cases hq'
      | some c =>
        rw [hg] at hq'
        rw [memAt_find_treesP none loader files scene hrun]
        rw [List.cons_append]
        rw [sceneScanSpec_at none (build_file_id_map loader files) scene _ j (q0 ++ s) c m'
          hg hq']
        exact ⟨hem', stickyOkB_none _ c (q0 ++ s)⟩

theorem c10_unresolved_reference_witness :
    (¬ memAt (find_treesP none none exFiles exScene2) [0]) ∧
    memAt (find_treesP none none exFiles exScene2) [0, 0] := by
  have hrun : (find_treesP none none exFiles exScene2).isSome = true := by decide
  have h := c10_unresolved_reference none none exFiles exScene2 [0] exUnresolved hrun rfl rfl (by decide)
  exact ⟨h.1, h.2 rfl [0] exRef1 rfl (by decide)⟩

/-- A failing element makes the whole option-traversal fail. -/
theorem traverseO_none {α β : Type} (f : α → Option β) :
    ∀ (xs : List α), (∃ x ∈ xs, f x = none) → traverseO f xs = none
  | [], h => by
    obtain ⟨x, hx, -⟩ := h
    cases hx
  | a :: rest, h => by
    obtain ⟨x, hx, hfx⟩ := h
    unfold traverseO
    rcases List.mem_cons.mp hx with h1 | h1
    · subst h1
      rw [hfx]
    · rw [traverseO_none f rest ⟨x, h1, hfx⟩]
      cases f a <;> rfl

/-- C6 (amended): for every non-empty transform-vector attribute string with
a token that fails float parsing, `parse_vector` falls back to the
supplied default and the traversal of a node carrying such an attribute
continues without failing; a numeric string with fewer than three
components, however, parses successfully and is not replaced by the
default (see the counterexample). -/
theorem c6_vector_fallback_amended (s : String) (d : List PyDec)
    (h1 : ¬ s = "") (h2 : ∃ tok ∈ pySplit s, parsePyFloat tok = none) :
    parse_vector (some s) d = d ∧
    ∀ (pn : Option String) (fm : FileMap) (p : List Nat) (tag : String)
      (nameA refId : Option String) (pm : Mat4) (b : Bool),
      (scanNode pn fm p (.mk tag nameA refId (some s) none none .nil) pm b).isSome = true := by
  have hpv : ∀ d0 : List PyDec, parse_vector (some s) d0 = d0 := by
    intro d0
    show (if s = "" then d0 else
      match traverseO parsePyFloat (pySplit s) with
      | some xs => xs
      | none => d0) = d0
    rw [if_neg h1, traverseO_none parsePyFloat (pySplit s) h2]
  refine ⟨hpv d, ?_⟩
  intro pn fm p tag nameA refId pm b
  simp only [scanNode]
  rw [hpv defaultZero3]
  rfl

theorem c6_vector_fallback_amended_witness :
    parse_vector (some ("1 x")) defaultZero3 = defaultZero3 ∧
    (scanNode none [] [] (.mk ("TransformGroup") (some ("g")) none (some ("1 x")) none none .nil)
      identity_matrix true).isSome = true := by
  have h := c6_vector_fallback_amended ("1 x") defaultZero3 (by decide) ⟨("x").toList, by decide, by decide⟩
  exact ⟨h.1, h.2 none [] [] ("TransformGroup") (some ("g")) none identity_matrix true⟩

/-- C6 counterexample: the two-component numeric attribute `1 2` parses
successfully to a two-element vector instead of falling back to the
default, and the traversal of a scene containing it fails (the modelled
IndexError of `trans[2]`), contradicting the claim that every malformed
vector falls back and the run continues. -/
theorem c6_vector_fallback_counterexample :
    parse_vector (some ("1 2")) defaultZero3 = [⟨1, 0, 0⟩, ⟨2, 0, 0⟩] ∧
    ¬ parse_vector (some ("1 2")) defaultZero3 = defaultZero3 ∧
    (find_treesP none none [] exShortVecScene).isSome = false := by
  exact ⟨by decide, by decide, by decide⟩
